import Mathlib

/-
Verification of the fetch-cache-transform-dispatch pipeline of `bot.py`
(a Notion-to-Telegram task reminder script) against its specification.

The Python code is shallowly embedded: JSON-shaped dynamic values are the
inductive `JValue`; Python attribute/subscript errors are the `PyErr`
error type of `Except`; the stateful module-level dispatch logic is a
pure function from its inputs (loaded caches, message list, API-call
outcomes) to the ordered list of outgoing API calls and the final
persisted state.  Machine-level concerns (threads, the real clock, HTTP)
are modelled by explicit parameters: the per-run `today` reference, file
modification times in seconds, and oracle functions for network fetches.
-/

namespace NotionSync

/-- JSON-like dynamic values: the shape of every piece of data the script
passes around (Notion API responses, cache file contents, task rows). -/
inductive JValue where
  | null
  | bool (b : Bool)
  | int (n : Int)
  | str (s : String)
  | arr (xs : List JValue)
  | obj (kvs : List (String × JValue))

/-- Python exception classes relevant to the embedded code. -/
inductive PyErr where
  | typeError
  | attributeError
  | indexError
  | keyError
  | valueError
  | nameError
  deriving Repr, DecidableEq

mutual

/-- Structural equality of JSON values, the model of Python `==` between
values deserialized from JSON (strings, ints, booleans, lists, dicts). -/
def jeq : JValue → JValue → Bool
  | .null, .null => true
  | .bool a, .bool b => a == b
  | .int a, .int b => a == b
  | .str a, .str b => a == b
  | .arr xs, .arr ys => jeqList xs ys
  | .obj a, .obj b => jeqObj a b
  | _, _ => false
termination_by structural a => a

def jeqList : List JValue → List JValue → Bool
  | [], [] => true
  | x :: xs, y :: ys => jeq x y && jeqList xs ys
  | _, _ => false
termination_by structural a => a

def jeqObj : List (String × JValue) → List (String × JValue) → Bool
  | [], [] => true
  | (k1, v1) :: xs, (k2, v2) :: ys => k1 == k2 && jeq v1 v2 && jeqObj xs ys
  | _, _ => false
termination_by structural a => a

end

/-- Association-list lookup (first match wins), the model of Python
dictionary lookup for the string-keyed dictionaries of this script. -/
def alookup {α : Type} (kvs : List (String × α)) (k : String) : Option α :=
  match kvs with
  | [] => none
  | (k', v) :: rest => if k' = k then some v else alookup rest k

/-- Python `d.get(key, default)`: a dictionary looks the key up and returns
the stored value (even when that value is `null`); calling `.get` on any
non-dictionary raises `AttributeError`. -/
def pyGet (v : JValue) (key : String) (dflt : JValue) : Except PyErr JValue :=
  match v with
  | .obj kvs => .ok ((alookup kvs key).getD dflt)
  | _ => .error .attributeError

/-- Python `x[0]` on a JSON-shaped value: lists and strings index (raising
`IndexError` when empty), dictionaries raise `KeyError` (their keys are
strings here, never `0`), everything else raises `TypeError`. -/
def pySub0 (v : JValue) : Except PyErr JValue :=
  match v with
  | .arr (x :: _) => .ok x
  | .arr [] => .error .indexError
  | .str s =>
    match s.data with
    | [] => .error .indexError
    | c :: _ => .ok (.str (String.mk [c]))
  | .obj _ => .error .keyError
  | _ => .error .typeError

/-- Python truthiness of a JSON-shaped value. -/
def pyTruthy (v : JValue) : Bool :=
  match v with
  | .null => false
  | .bool b => b
  | .int n => n != 0
  | .str s => s != ""
  | .arr xs => !xs.isEmpty
  | .obj kvs => !kvs.isEmpty

/-- Python whitespace, as `str.strip()` and `str.split()` see it. -/
def pyIsSpace (c : Char) : Bool :=
  c = ' ' || c = '\t' || c = '\n' || c = '\r' || c.toNat = 11 || c.toNat = 12

/-- Python `s.strip()` on the character list: whitespace removed from both
ends. -/
def pyStripStr (s : String) : String :=
  String.mk (((s.data.dropWhile pyIsSpace).reverse.dropWhile pyIsSpace).reverse)

/-- Python `s.upper()` (ASCII range; the strings compared in the theorems
below stay within it). -/
def pyUpperChar (c : Char) : Char :=
  if 97 ≤ c.toNat && c.toNat ≤ 122 then Char.ofNat (c.toNat - 32) else c

def pyUpper (s : String) : String := String.mk (s.data.map pyUpperChar)

/-- Python `s.split(", ")`: split at each leftmost non-overlapping
occurrence of comma-space; the empty string yields one empty part. -/
def splitCommaSpace : List Char → List (List Char)
  | [] => [[]]
  | ',' :: ' ' :: rest => [] :: splitCommaSpace rest
  | c :: rest =>
    match splitCommaSpace rest with
    | g :: gs => (c :: g) :: gs
    | [] => [[c]]

/-- Python `sep.join(parts)`. -/
def joinList (sep : List Char) : List (List Char) → List Char
  | [] => []
  | [x] => x
  | x :: y :: xs => x ++ sep ++ joinList sep (y :: xs)

def joinStrings (sep : String) (parts : List String) : String :=
  String.mk (joinList sep.data (parts.map String.data))

/-- Decimal digits of a natural number, fuelled to keep the recursion
structural; `fuel > n` always suffices. -/
def natToDigitsAux : Nat → Nat → List Char
  | 0, _ => []
  | fuel + 1, n =>
    if n < 10 then [Char.ofNat (48 + n)]
    else natToDigitsAux fuel (n / 10) ++ [Char.ofNat (48 + n % 10)]

/-- Decimal digits of a natural number, as Python prints integers. -/
def natToDigits (n : Nat) : List Char := natToDigitsAux (n + 1) n

/-- Python `repr`/`str` of an integer. -/
def intToChars (n : Int) : List Char :=
  if n < 0 then '-' :: natToDigits n.natAbs else natToDigits n.natAbs

def intToStr (n : Int) : String := String.mk (intToChars n)

/-- Python `s.strip()`: strings are trimmed; anything else raises
`AttributeError`. -/
def pyStrip (v : JValue) : Except PyErr String :=
  match v with
  | .str s => .ok (pyStripStr s)
  | _ => .error .attributeError

/-- The body of `extract_title` (bot.py lines 175-177):
`props.get(prop_name, {}).get("title", [{}])[0].get("plain_text", "").strip()`. -/
def extract_title_body (props : JValue) (propName : String) : Except PyErr String := do
  let v1 ← pyGet props propName (.obj [])
  let v2 ← pyGet v1 "title" (.arr [.obj []])
  let v3 ← pySub0 v2
  let v4 ← pyGet v3 "plain_text" (.str "")
  pyStrip v4

/-- `extract_title` (bot.py lines 173-180): the body wrapped in
`except (IndexError, AttributeError): return ""`.  Any other exception
(e.g. `TypeError`) escapes to the caller. -/
def extract_title (props : JValue) (propName : String) : Except PyErr String :=
  match extract_title_body props propName with
  | .ok s => .ok s
  | .error .indexError => .ok ""
  | .error .attributeError => .ok ""
  | .error e => .error e

/-- `extract_checkbox` (bot.py lines 183-184):
`"Yes" if props.get(prop_name, {}).get("checkbox", False) else "No"`.
No exception handler. -/
def extract_checkbox (props : JValue) (propName : String) : Except PyErr String := do
  let v1 ← pyGet props propName (.obj [])
  let v2 ← pyGet v1 "checkbox" (.bool false)
  pure (if pyTruthy v2 then "Yes" else "No")

/-- `extract_select` (bot.py lines 187-188):
`props.get(prop_name, {}).get("select", {}).get("name", "") or ""`.
No exception handler. -/
def extract_select (props : JValue) (propName : String) : Except PyErr JValue := do
  let v1 ← pyGet props propName (.obj [])
  let v2 ← pyGet v1 "select" (.obj [])
  let v3 ← pyGet v2 "name" (.str "")
  pure (if pyTruthy v3 then v3 else .str "")

/-- `extract_date` (bot.py lines 236-238):
`props.get(prop_name, {}).get("date", {}).get("start", "")`.
No exception handler. -/
def extract_date (props : JValue) (propName : String) : Except PyErr JValue := do
  let v1 ← pyGet props propName (.obj [])
  let v2 ← pyGet v1 "date" (.obj [])
  pyGet v2 "start" (.str "")

/-- `extract_rich_text` (bot.py lines 241-243):
`rich_text[0].get("text", {}).get("content", "") if rich_text else ""`
where `rich_text = props.get(prop_name, {}).get("rich_text", [])`.
No exception handler. -/
def extract_rich_text (props : JValue) (propName : String) : Except PyErr JValue := do
  let v1 ← pyGet props propName (.obj [])
  let rt ← pyGet v1 "rich_text" (.arr [])
  if pyTruthy rt then do
    let x ← pySub0 rt
    let t ← pyGet x "text" (.obj [])
    pyGet t "content" (.str "")
  else
    pure (.str "")

/-! ### Date model -/

/-- A calendar date, the value both `datetime.fromisoformat` and
`datetime.strptime(s, "%Y-%m-%d")` produce on a `YYYY-MM-DD` string
(time-of-day zeroed). -/
structure Date where
  year : Int
  month : Nat
  day : Nat
  deriving Repr, DecidableEq

def isLeap (y : Int) : Bool :=
  (y % 4 == 0 && y % 100 != 0) || y % 400 == 0

def daysInMonth (y : Int) (m : Nat) : Nat :=
  if m = 2 then (if isLeap y then 29 else 28)
  else if m = 4 ∨ m = 6 ∨ m = 9 ∨ m = 11 then 30
  else 31

def digitVal (c : Char) : Nat := c.toNat - 48

/-- Result of `datetime.fromisoformat`: a date, a time of day, and whether
the string carried a UTC offset (making the datetime timezone-aware). -/
structure PyDateTime where
  date : Date
  hour : Nat
  minute : Nat
  second : Nat
  usec : Nat
  tzAware : Bool
  deriving Repr, DecidableEq

def parse2 (a b : Char) : Option Nat :=
  if a.isDigit && b.isDigit then some (digitVal a * 10 + digitVal b) else none

/-- Model of CPython's `_parse_hh_mm_ss_ff`: `HH`, `HH:MM` or `HH:MM:SS`,
the last optionally followed by a fraction of exactly three or six digits;
no range checks here (the `datetime`/`timedelta` constructors do those). -/
def parse_hh_mm_ss_ff (seg : List Char) : Option (Nat × Nat × Nat × Nat) :=
  match seg with
  | h1 :: h2 :: rest =>
    match parse2 h1 h2 with
    | none => none
    | some hh =>
      match rest with
      | [] => some (hh, 0, 0, 0)
      | ':' :: m1 :: m2 :: rest2 =>
        match parse2 m1 m2 with
        | none => none
        | some mm =>
          match rest2 with
          | [] => some (hh, mm, 0, 0)
          | ':' :: s1 :: s2 :: rest3 =>
            match parse2 s1 s2 with
            | none => none
            | some ss =>
              match rest3 with
              | [] => some (hh, mm, ss, 0)
              | '.' :: fs =>
                if fs.all (fun c => c.isDigit) then
                  if fs.length = 3 then
                    some (hh, mm, ss, (fs.foldl (fun a c => a * 10 + digitVal c) 0) * 1000)
                  else if fs.length = 6 then
                    some (hh, mm, ss, fs.foldl (fun a c => a * 10 + digitVal c) 0)
                  else none
                else none
              | _ => none
          | _ => none
      | _ => none
  | _ => none

/-- Split of the time string at the first `+` or `-`, which marks the UTC
offset (CPython's `tz_pos` search in `_parse_isoformat_time`). -/
def splitTz : List Char → List Char × Option (List Char)
  | [] => ([], none)
  | c :: rest =>
    if c = '+' ∨ c = '-' then ([], some rest)
    else
      let p := splitTz rest
      (c :: p.1, p.2)

/-- Model of `datetime.fromisoformat` on its documented grammar — the
strings `datetime.isoformat()` emits: `YYYY-MM-DD` (zero-padded), then
optionally one arbitrary separator character and a time
`HH[:MM[:SS[.fff|.ffffff]]]`, then optionally a UTC offset
`±HH:MM[:SS[.ffffff]]` (length-checked as in CPython).  Every string this
model accepts is parsed identically by every supported Python; newer
versions additionally accept further ISO 8601 forms.  Component ranges
are validated as the `date`/`datetime`/`timezone` constructors do; any
failure is a `ValueError` at the call site, i.e. `none`. -/
def fromisoformat (s : String) : Option PyDateTime :=
  match s.data with
  | y1 :: y2 :: y3 :: y4 :: c1 :: m1 :: m2 :: c2 :: d1 :: d2 :: rest =>
    if y1.isDigit && y2.isDigit && y3.isDigit && y4.isDigit && c1 = '-' &&
       m1.isDigit && m2.isDigit && c2 = '-' && d1.isDigit && d2.isDigit then
      let y : Nat := digitVal y1 * 1000 + digitVal y2 * 100 + digitVal y3 * 10 + digitVal y4
      let m : Nat := digitVal m1 * 10 + digitVal m2
      let d : Nat := digitVal d1 * 10 + digitVal d2
      if 1 ≤ y ∧ 1 ≤ m ∧ m ≤ 12 ∧ 1 ≤ d ∧ d ≤ daysInMonth (y : Int) m then
        match rest with
        | [] => some ⟨⟨(y : Int), m, d⟩, 0, 0, 0, 0, false⟩
        | _ :: tstr =>
          match splitTz tstr with
          | (timeSeg, tzSeg) =>
            match parse_hh_mm_ss_ff timeSeg with
            | none => none
            | some (hh, mm, ss, us) =>
              if hh ≤ 23 ∧ mm ≤ 59 ∧ ss ≤ 59 then
                match tzSeg with
                | none => some ⟨⟨(y : Int), m, d⟩, hh, mm, ss, us, false⟩
                | some tz =>
                  if tz.length = 5 ∨ tz.length = 8 ∨ tz.length = 15 then
                    match parse_hh_mm_ss_ff tz with
                    | none => none
                    | some (th, tm, ts, tus) =>
                      if (th * 3600 + tm * 60 + ts) * 1000000 + tus
                          < 86400000000 then
                        some ⟨⟨(y : Int), m, d⟩, hh, mm, ss, us, true⟩
                      else none
                  else none
              else none
      else none
    else none
  | _ => none

/-- Day number of a date in the proleptic Gregorian calendar, counted from
1970-01-01; the difference of two day numbers is exactly Python's
`(d1 - d2).days` for two midnight datetimes. -/
def toDays (dt : Date) : Int :=
  let y : Int := if dt.month ≤ 2 then dt.year - 1 else dt.year
  let era : Int := Int.fdiv y 400
  let yoe : Int := y - era * 400
  let mp : Nat := (dt.month + 9) % 12
  let doy : Int := (153 * (mp : Int) + 2) / 5 + (dt.day : Int) - 1
  let doe : Int := yoe * 365 + Int.fdiv yoe 4 - Int.fdiv yoe 100 + doy
  era * 146097 + doe - 719468

/-- `calculate_days_remaining` (bot.py lines 249-257), with `today` the
midnight-normalized reference of line 247.  The empty (falsy) string gives
`None`; a `ValueError` from `fromisoformat` is caught, giving `None`; a
timezone-aware result makes `entrega_dt - today` raise an uncaught
`TypeError` (aware minus naive); a naive result gives
`(entrega_dt - today).days`, which — `today` being midnight and the time
of day under 24 hours — is exactly the day-number difference of the date
parts. -/
def calculate_days_remaining (entregaDate : String) (today : Date) :
    Except PyErr (Option Int) :=
  if entregaDate = "" then .ok none
  else
    match fromisoformat entregaDate with
    | none => .ok none
    | some dt =>
      if dt.tzAware then .error .typeError
      else .ok (some (toDays dt.date - toDays today))

/-- The `%m` directive of `strptime`: the regex `1[0-2]|0[1-9]|[1-9]`,
longer alternative first, so one or two digits are accepted. -/
def matchMonth : List Char → Option (Nat × List Char)
  | [] => none
  | [a] => if a.isDigit && 1 ≤ digitVal a then some (digitVal a, []) else none
  | a :: b :: rest =>
    if a.isDigit && b.isDigit then
      if (a = '1' && digitVal b ≤ 2) || (a = '0' && 1 ≤ digitVal b) then
        some (digitVal a * 10 + digitVal b, rest)
      else if 1 ≤ digitVal a then some (digitVal a, b :: rest)
      else none
    else if a.isDigit && 1 ≤ digitVal a then some (digitVal a, b :: rest)
    else none

/-- The `%d` directive of `strptime`: the regex
`3[01]|[12]\d|0[1-9]|[1-9]`. -/
def matchDay : List Char → Option (Nat × List Char)
  | [] => none
  | [a] => if a.isDigit && 1 ≤ digitVal a then some (digitVal a, []) else none
  | a :: b :: rest =>
    if a.isDigit && b.isDigit then
      if (a = '3' && digitVal b ≤ 1) || a = '1' || a = '2' ||
          (a = '0' && 1 ≤ digitVal b) then
        some (digitVal a * 10 + digitVal b, rest)
      else if 1 ≤ digitVal a then some (digitVal a, b :: rest)
      else none
    else if a.isDigit && 1 ≤ digitVal a then some (digitVal a, b :: rest)
    else none

/-- Model of `datetime.strptime(s, "%Y-%m-%d")`: `%Y` is exactly four
digits, the dashes are literal, `%m` and `%d` follow their regexes above
(so non-zero-padded months and days are accepted), nothing may remain
after the match (`unconverted data remains` otherwise), and the `datetime`
constructor validates the day against the month and the year lower bound,
raising `ValueError` — `none` here — on failure. -/
def strptimeYmd (s : String) : Option Date :=
  match s.data with
  | y1 :: y2 :: y3 :: y4 :: '-' :: rest =>
    if y1.isDigit && y2.isDigit && y3.isDigit && y4.isDigit then
      let y : Nat := digitVal y1 * 1000 + digitVal y2 * 100 + digitVal y3 * 10 + digitVal y4
      match matchMonth rest with
      | some (m, '-' :: rest2) =>
        match matchDay rest2 with
        | some (d, []) =>
          if 1 ≤ y ∧ d ≤ daysInMonth (y : Int) m then some ⟨(y : Int), m, d⟩
          else none
        | _ => none
      | _ => none
    else none
  | _ => none

def mesNome (m : Nat) : String :=
  match m with
  | 1 => "Janeiro"
  | 2 => "Fevereiro"
  | 3 => "Março"
  | 4 => "Abril"
  | 5 => "Maio"
  | 6 => "Junho"
  | 7 => "Julho"
  | 8 => "Agosto"
  | 9 => "Setembro"
  | 10 => "Outubro"
  | 11 => "Novembro"
  | 12 => "Dezembro"
  | _ => ""

/-- `formatar_data` (bot.py lines 341-359, the second definition, which
shadows the first): `strptime(data_str, "%Y-%m-%d")` then
`f"{dia} de {mes}"`; an unparsable string raises `ValueError`. -/
def formatar_data (dataStr : String) : Except PyErr String :=
  match strptimeYmd dataStr with
  | none => .error .valueError
  | some dt => .ok (String.mk (natToDigits dt.day) ++ " de " ++ mesNome dt.month)

/-! ### Markdown escaping -/

def backslashChar : Char := '\\'

/-- The reserved characters of `escapar_markdown_v2` (bot.py lines 363-382):
underscore, asterisk, brackets, parentheses, tilde, backquote, greater-than,
hash, plus, minus, equals, pipe, braces, dot, exclamation mark. -/
def reservedChars : List Char :=
  ['_', '*', '[', ']', '(', ')', '~', Char.ofNat 96, '>', '#', '+', '-', '=',
   '|', Char.ofNat 123, Char.ofNat 125, '.', '!']

/-- Python `texto.replace(c, repl)` for a single-character needle. -/
def replaceChar (c : Char) (repl : List Char) (s : List Char) : List Char :=
  s.flatMap (fun x => if x = c then repl else [x])

/-- `escapar_markdown_v2` (bot.py lines 362-385): sequentially replaces each
reserved character `c` in the text by backslash-`c`. -/
def escapar_markdown_v2 (texto : String) : String :=
  String.mk
    (reservedChars.foldl (fun acc c => replaceChar c [backslashChar, c] acc) texto.data)

/-- Character-wise description of the escaping: each reserved character
becomes backslash-plus-character, every other character is unchanged. -/
def escChar (c : Char) : List Char :=
  if c ∈ reservedChars then [backslashChar, c] else [c]

/-- Scanner deciding whether every reserved character in the list is
immediately preceded by a run of exactly one backslash (`k` counts the
backslashes just read). -/
def escOkAux (k : Nat) : List Char → Bool
  | [] => true
  | c :: rest =>
    (if c ∈ reservedChars then k == 1 else true) &&
      escOkAux (if c = backslashChar then k + 1 else 0) rest

/-- The property claimed of the escaper's output: every occurrence of a
reserved character is preceded by exactly one backslash. -/
def escOk (s : String) : Bool := escOkAux 0 s.data

/-! ### Task records, the dispatch filter and the message renderer -/

/-- One row of the merged tabular collection, as produced by
`process_result` (bot.py lines 260-273) and consumed after `df.to_dicts()`:
all keys are always present. -/
structure Tarefa where
  professor : String
  feito : String
  tipo : String
  estagio : String
  materia : String
  entrega : String
  diasRestantes : Option Int
  descricao : String
  topicos : String

/-- The polars dispatch filter (bot.py line 325):
`(pl.col("Feito?") == "No") & (pl.col("Dias Restantes") <= 7)`.
A null days-remaining makes the comparison null and the row is dropped. -/
def dispatchFilter (t : Tarefa) : Bool :=
  t.feito == "No" &&
    (match t.diasRestantes with
     | some d => d ≤ 7
     | none => false)

/-- The "days remaining" phrase of the message: the urgent marker for zero,
`"{d} DIA"` with plural `S` for `d > 1` (bot.py lines 411-414). -/
def diasTexto (d : Int) : String :=
  if d = 0 then "🚨 HOJE 🚨"
  else intToStr d ++ " DIA" ++ (if d > 1 then "S" else "")

/-- One bullet of the topics section: `f"\\- _{escapar(topico.strip())}_"`. -/
def formatTopico (topico : String) : String :=
  "\\- _" ++ escapar_markdown_v2 (pyStripStr topico) ++ "_"

/-- The final message text of `gerar_mensagem_tarefa` once all parts are
computed (bot.py lines 416-422). -/
def mensagemText (tipo materia dataFormatada descricao topicosFormatados : String)
    (d : Int) : String :=
  "*" ++ tipo ++ " \\- " ++ materia ++ "*\n" ++
  "Dias Restantes: *" ++ diasTexto d ++ "*\n" ++
  "Entrega: `" ++ dataFormatada ++ "`\n" ++
  "Tópicos:\n" ++ topicosFormatados ++ "\n" ++
  "Descrição: _" ++ descricao ++ "_"

/-- `gerar_mensagem_tarefa` (bot.py lines 388-423).  The first statement
compares `Dias Restantes` with 7: on `None` that comparison raises
`TypeError`.  `formatar_data` is invoked on the due date whenever it is not
the literal `"N/D"` and raises `ValueError` on an unparsable string; all
other steps are total string manipulation. -/
def gerar_mensagem_tarefa (t : Tarefa) : Except PyErr (Option String) :=
  match t.diasRestantes with
  | none => .error .typeError
  | some d =>
    if d > 7 then .ok none
    else
      match (if t.entrega ≠ "N/D" then formatar_data t.entrega else .ok "N/D") with
      | .error e => .error e
      | .ok dataFormatada =>
        let tipo := escapar_markdown_v2 (pyUpper t.tipo)
        let materia := escapar_markdown_v2 t.materia
        let descricao :=
          escapar_markdown_v2 (if t.descricao = "" then "Sem descrição" else t.descricao)
        let topicos := if t.topicos = "" then "Sem Tópicos" else t.topicos
        let topicosFormatados :=
          joinStrings "\n"
            ((splitCommaSpace topicos.data).map (fun g => formatTopico (String.mk g)))
        .ok (some (mensagemText tipo materia dataFormatada descricao topicosFormatados d))

/-- A task record contributes a fragment to the outbound message exactly
when it survives the dispatch filter and the renderer returns a message
(bot.py lines 325, 328, 467-468). -/
def contributesFragment (t : Tarefa) : Prop :=
  dispatchFilter t = true ∧ ∃ m, gerar_mensagem_tarefa t = .ok (some m)

/-- `mensagens = [gerar_mensagem_tarefa(t) for t in tarefas]` followed by
dropping the `None` entries (bot.py lines 467-468); a raising renderer
aborts the comprehension. -/
def mensagensValidas (ts : List Tarefa) : Except PyErr (List String) := do
  let ms ← ts.mapM gerar_mensagem_tarefa
  pure (ms.filterMap id)

/-! ### Relation resolver -/

/-- The external world the resolver sees: the page cache loaded at start
and the network.  `net id = none` models a failed fetch. -/
structure NotionEnv where
  pageCache : String → Option JValue
  net : String → Option JValue

/-- `get_notion_page_async` (bot.py lines 191-205): cache hit wins, else the
page is fetched; any fetch failure is swallowed and yields `{}`.  (The
fetched page is also written into the page cache; as the network oracle is
deterministic this mutation is observationally irrelevant here.) -/
def get_notion_page (env : NotionEnv) (pageId : String) : JValue :=
  match env.pageCache pageId with
  | some v => v
  | none => (env.net pageId).getD (.obj [])

/-- The title one relation identifier resolves to by fetching:
`extract_title(page_data.get("properties", {}), "Name")`, with any escaping
exception swallowed by the surrounding `except` and an empty (falsy) title
discarded (bot.py lines 220-226). -/
def fetchTitle (env : NotionEnv) (relId : String) : Option String :=
  let page := get_notion_page env relId
  match (do
      let props ← pyGet page "properties" (.obj [])
      extract_title props "Name" : Except PyErr String) with
  | .error _ => none
  | .ok "" => none
  | .ok title => some title

/-- One loop iteration of `extract_relation_titles_async` (bot.py lines
214-228), threading the matéria title cache: a cache hit appends the cached
title; otherwise a successful fetch appends and caches the title; a failed
or empty resolution appends nothing. -/
def resolveStep (env : NotionEnv) (acc : List (String × String) × List String)
    (relId : String) : List (String × String) × List String :=
  match alookup acc.1 relId with
  | some t => (acc.1, acc.2 ++ [t])
  | none =>
    match fetchTitle env relId with
    | some title => ((relId, title) :: acc.1, acc.2 ++ [title])
    | none => (acc.1, acc.2 ++ [])

/-- `extract_relation_titles_async` (bot.py lines 208-229) on the list of
relation identifiers of one field: an empty relation list returns the
empty string immediately; otherwise the resolved titles are joined with
`", "` and, when that join is falsy, the sentinel is returned
(`return ", ".join(titles) or "Nenhuma relação encontrada"`). -/
def extract_relation_titles (env : NotionEnv) (materiaCache : List (String × String))
    (relations : List String) : String :=
  if relations.isEmpty then ""
  else
    let acc := relations.foldl (resolveStep env) (materiaCache, [])
    let joined := joinStrings ", " acc.2
    if joined = "" then "Nenhuma relação encontrada" else joined

/-- Stateless description of what one identifier resolves to against the
initial cache: the cached title if present, otherwise the fetched title. -/
def resolveOneS (env : NotionEnv) (cache : List (String × String))
    (relId : String) : Option String :=
  match alookup cache relId with
  | some t => some t
  | none => fetchTitle env relId

/-! ### JSON serialization (`json.dump`) -/

def quoteChar : Char := '"'
def lbracketChar : Char := '['
def rbracketChar : Char := ']'
def lbraceChar : Char := Char.ofNat 123
def rbraceChar : Char := Char.ofNat 125

def hexDigitChar (n : Nat) : Char :=
  if n < 10 then Char.ofNat (48 + n) else Char.ofNat (87 + n)

/-- Four lowercase hex digits, as Python's `json` emits in `\uXXXX`. -/
def hex4 (n : Nat) : List Char :=
  [hexDigitChar (n / 4096 % 16), hexDigitChar (n / 256 % 16),
   hexDigitChar (n / 16 % 16), hexDigitChar (n % 16)]

/-- Python `json.dump` escaping of one string character with the default
`ensure_ascii=True`: quote and backslash get a backslash, the five short
control escapes apply, any other character outside printable ASCII becomes
`\uXXXX` (a surrogate pair for astral characters), and printable ASCII
passes through. -/
def jsonEscapeChar (c : Char) : List Char :=
  if c = quoteChar then [backslashChar, quoteChar]
  else if c = backslashChar then [backslashChar, backslashChar]
  else if c = '\n' then [backslashChar, 'n']
  else if c = '\r' then [backslashChar, 'r']
  else if c = '\t' then [backslashChar, 't']
  else if c.toNat = 8 then [backslashChar, 'b']
  else if c.toNat = 12 then [backslashChar, 'f']
  else if c.toNat < 32 ∨ 126 < c.toNat then
    if c.toNat < 65536 then backslashChar :: 'u' :: hex4 c.toNat
    else
      (backslashChar :: 'u' :: hex4 (55296 + (c.toNat - 65536) / 1024)) ++
        (backslashChar :: 'u' :: hex4 (56320 + (c.toNat - 65536) % 1024))
  else [c]

/-- A JSON string literal with its quotes. -/
def dumpStr (s : String) : List Char :=
  quoteChar :: (s.data.flatMap jsonEscapeChar) ++ [quoteChar]

mutual

/-- `json.dump` of a value with the default separators `", "` and `": "`. -/
def dumpVal : JValue → List Char
  | .null => "null".data
  | .bool true => "true".data
  | .bool false => "false".data
  | .int n => intToChars n
  | .str s => dumpStr s
  | .arr [] => [lbracketChar, rbracketChar]
  | .arr (x :: xs) => lbracketChar :: (dumpVal x ++ dumpArrRest xs) ++ [rbracketChar]
  | .obj [] => [lbraceChar, rbraceChar]
  | .obj (kv :: kvs) => lbraceChar :: (dumpKV kv ++ dumpObjRest kvs) ++ [rbraceChar]
termination_by structural v => v

/-- The remaining elements of an array, each preceded by `", "`. -/
def dumpArrRest : List JValue → List Char
  | [] => []
  | x :: xs => ',' :: ' ' :: (dumpVal x ++ dumpArrRest xs)
termination_by structural xs => xs

/-- One `"key": value` member. -/
def dumpKV : String × JValue → List Char
  | (k, v) => dumpStr k ++ ':' :: ' ' :: dumpVal v
termination_by structural kv => kv

/-- The remaining members of an object, each preceded by `", "`. -/
def dumpObjRest : List (String × JValue) → List Char
  | [] => []
  | kv :: kvs => ',' :: ' ' :: (dumpKV kv ++ dumpObjRest kvs)
termination_by structural kvs => kvs

end

/-! ### JSON parsing (`json.load`) -/

def isWsChar (c : Char) : Bool := c = ' ' || c = '\t' || c = '\n' || c = '\r'

def skipWs : List Char → List Char
  | [] => []
  | c :: rest => if isWsChar c then skipWs rest else c :: rest

def hexVal (c : Char) : Option Nat :=
  if 48 ≤ c.toNat && c.toNat ≤ 57 then some (c.toNat - 48)
  else if 97 ≤ c.toNat && c.toNat ≤ 102 then some (c.toNat - 87)
  else if 65 ≤ c.toNat && c.toNat ≤ 70 then some (c.toNat - 55)
  else none

def decodeHex4 (a b c d : Char) : Option Nat := do
  let va ← hexVal a
  let vb ← hexVal b
  let vc ← hexVal c
  let vd ← hexVal d
  pure (va * 4096 + vb * 256 + vc * 16 + vd)

/-- Decoding of one JSON escape sequence, after the backslash: the short
escapes, and `\uXXXX` with surrogate-pair combination (lone surrogates,
which cannot inhabit `Char`, are rejected by this model). -/
def decodeEscape : List Char → Option (Char × List Char)
  | [] => none
  | e :: rest2 =>
    if e = quoteChar then some (quoteChar, rest2)
    else if e = backslashChar then some (backslashChar, rest2)
    else if e = '/' then some ('/', rest2)
    else if e = 'n' then some ('\n', rest2)
    else if e = 't' then some ('\t', rest2)
    else if e = 'r' then some ('\r', rest2)
    else if e = 'b' then some (Char.ofNat 8, rest2)
    else if e = 'f' then some (Char.ofNat 12, rest2)
    else if e = 'u' then
      match rest2 with
      | a :: b :: c2 :: d :: rest3 =>
        match decodeHex4 a b c2 d with
        | none => none
        | some n =>
          if 55296 ≤ n ∧ n ≤ 56319 then
            match rest3 with
            | u1 :: u2 :: a2 :: b2 :: c3 :: d2 :: rest4 =>
              if u1 = backslashChar ∧ u2 = 'u' then
                match decodeHex4 a2 b2 c3 d2 with
                | none => none
                | some n2 =>
                  if 56320 ≤ n2 ∧ n2 ≤ 57343 then
                    some (Char.ofNat (65536 + (n - 55296) * 1024 + (n2 - 56320)),
                      rest4)
                  else none
              else none
            | _ => none
          else if 56320 ≤ n ∧ n ≤ 57343 then none
          else some (Char.ofNat n, rest3)
      | _ => none
    else none

/-- The body of a JSON string literal, after the opening quote: returns the
decoded characters and the input after the closing quote.  The strict JSON
decoder rejects raw control characters.  The fuel bounds the number of
decoded characters; one unit per decoded character always suffices. -/
def parseStringBodyF : Nat → List Char → Option (List Char × List Char)
  | 0, _ => none
  | _ + 1, [] => none
  | f + 1, c :: rest =>
    if c = quoteChar then some ([], rest)
    else if c = backslashChar then
      match decodeEscape rest with
      | none => none
      | some (ch, r) => (parseStringBodyF f r).map (fun p => (ch :: p.1, p.2))
    else if c.toNat < 32 then none
    else (parseStringBodyF f rest).map (fun p => (c :: p.1, p.2))

/-- The body of a JSON string literal; the fuel `length + 1` always
suffices since every decoded character consumes at least one input
character. -/
def parseStringBody (s : List Char) : Option (List Char × List Char) :=
  parseStringBodyF (s.length + 1) s

/-- The maximal leading run of decimal digits. -/
def takeDigits : List Char → List Char × List Char
  | [] => ([], [])
  | c :: rest =>
    if c.isDigit then
      let p := takeDigits rest
      (c :: p.1, p.2)
    else ([], c :: rest)

def digitsToNat (acc : Nat) : List Char → Nat
  | [] => acc
  | c :: rest => digitsToNat (acc * 10 + (c.toNat - 48)) rest

/-- The digits of a JSON number, once the optional minus sign is consumed:
a non-empty digit run without a leading zero, not followed by a digit,
fraction or exponent (a float in Python is outside this model and
rejected). -/
def parseNumberCore (neg : Bool) (s : List Char) : Option (JValue × List Char) :=
  match takeDigits s with
  | (digits, r) =>
    match digits with
    | [] => none
    | d0 :: ds =>
      if d0 = '0' ∧ ds ≠ [] then none
      else
        match r with
        | c :: _ =>
          if c.isDigit || c == '.' || c == 'e' || c == 'E' then none
          else
            some (.int (if neg then -(digitsToNat 0 (d0 :: ds) : Int)
              else (digitsToNat 0 (d0 :: ds) : Int)), r)
        | [] =>
          some (.int (if neg then -(digitsToNat 0 (d0 :: ds) : Int)
            else (digitsToNat 0 (d0 :: ds) : Int)), r)

/-- A JSON number: an optional minus sign, then digits. -/
def parseNumber (s : List Char) : Option (JValue × List Char) :=
  match s with
  | c :: rest => if c = '-' then parseNumberCore true rest else parseNumberCore false s
  | [] => none

mutual

/-- Recursive-descent JSON value parser (the model of `json.loads`), with a
fuel parameter bounding the nesting depth. -/
def parseVal : Nat → List Char → Option (JValue × List Char)
  | 0, _ => none
  | fuel + 1, s =>
    match skipWs s with
    | [] => none
    | c :: rest =>
      if c = quoteChar then
        (parseStringBody rest).map (fun p => (.str (String.mk p.1), p.2))
      else if c = lbracketChar then
        match skipWs rest with
        | [] => none
        | c2 :: rest2 =>
          if c2 = rbracketChar then some (.arr [], rest2)
          else
            match parseVal fuel (c2 :: rest2) with
            | none => none
            | some (v, r) =>
              match parseArrRest fuel r with
              | none => none
              | some (vs, r2) => some (.arr (v :: vs), r2)
      else if c = lbraceChar then
        match skipWs rest with
        | [] => none
        | c2 :: rest2 =>
          if c2 = rbraceChar then some (.obj [], rest2)
          else
            match parseMember fuel (c2 :: rest2) with
            | none => none
            | some (kv, r) =>
              match parseObjRest fuel r with
              | none => none
              | some (kvs, r2) => some (.obj (kv :: kvs), r2)
      else if c = 'n' then
        match rest with
        | 'u' :: 'l' :: 'l' :: r => some (.null, r)
        | _ => none
      else if c = 't' then
        match rest with
        | 'r' :: 'u' :: 'e' :: r => some (.bool true, r)
        | _ => none
      else if c = 'f' then
        match rest with
        | 'a' :: 'l' :: 's' :: 'e' :: r => some (.bool false, r)
        | _ => none
      else parseNumber (c :: rest)
termination_by structural fuel => fuel

/-- After one array element: either `", "` and more elements or `]`. -/
def parseArrRest : Nat → List Char → Option (List JValue × List Char)
  | 0, _ => none
  | fuel + 1, s =>
    match skipWs s with
    | [] => none
    | c :: rest =>
      if c = ',' then
        match parseVal fuel rest with
        | none => none
        | some (v, r) =>
          match parseArrRest fuel r with
          | none => none
          | some (vs, r2) => some (v :: vs, r2)
      else if c = rbracketChar then some ([], rest)
      else none
termination_by structural fuel => fuel

/-- One `"key": value` member of an object. -/
def parseMember : Nat → List Char → Option ((String × JValue) × List Char)
  | 0, _ => none
  | fuel + 1, s =>
    match skipWs s with
    | [] => none
    | c :: rest =>
      if c = quoteChar then
        match parseStringBody rest with
        | none => none
        | some (ks, r) =>
          match skipWs r with
          | [] => none
          | c2 :: r2 =>
            if c2 = ':' then
              match parseVal fuel r2 with
              | none => none
              | some (v, r3) => some ((String.mk ks, v), r3)
            else none
      else none
termination_by structural fuel => fuel

/-- After one object member: either `", "` and more members or the brace. -/
def parseObjRest : Nat → List Char → Option (List (String × JValue) × List Char)
  | 0, _ => none
  | fuel + 1, s =>
    match skipWs s with
    | [] => none
    | c :: rest =>
      if c = ',' then
        match parseMember fuel rest with
        | none => none
        | some (kv, r) =>
          match parseObjRest fuel r with
          | none => none
          | some (kvs, r2) => some (kv :: kvs, r2)
      else if c = rbraceChar then some ([], rest)
      else none
termination_by structural fuel => fuel

end

/-- The model of `json.loads`: parse one value and require only trailing
whitespace after it.  The fuel `length + 1` dominates any possible nesting
depth. -/
def json_loads (s : String) : Option JValue :=
  match parseVal (s.data.length + 1) s.data with
  | some (v, r) => if skipWs r = [] then some v else none
  | none => none

/-! ### File-backed caches -/

/-- A cache file on disk: its text content and its modification time in
seconds. -/
structure CacheFile where
  content : String
  mtime : Int

/-- Python `len()` on a JSON value: sized for strings, lists and dicts,
`TypeError` (here `none`) otherwise. -/
def pyLen : JValue → Option Nat
  | .str s => some s.length
  | .arr xs => some xs.length
  | .obj kvs => some kvs.length
  | _ => none

/-- `load_cache` (bot.py lines 75-87): a missing file gives `{}`; otherwise
the content is parsed and returned.  Any exception inside the `try` block —
a JSON parse error, or the `len(cache)` call of the log line raising
`TypeError` on a non-sized value — is caught and gives `{}`. -/
def load_cache (file : Option CacheFile) : JValue :=
  match file with
  | none => .obj []
  | some f =>
    match json_loads f.content with
    | none => .obj []
    | some v => if (pyLen v).isSome then v else .obj []

/-- `check_and_update_cache` (bot.py lines 64-72): when the file exists and
`(datetime.now() - mod_time).days > max_age_days` — the *floor* of the age
in whole days — the cache is discarded wholesale; otherwise it is loaded. -/
def check_and_update_cache (file : Option CacheFile) (now : Int)
    (maxAgeDays : Int) : JValue :=
  match file with
  | some f =>
    if Int.fdiv (now - f.mtime) 86400 > maxAgeDays then .obj []
    else load_cache file
  | none => load_cache none

/-- `save_cache` (bot.py lines 90-96) on a successful write: the file now
holds `json.dump(cache)` with the current time as modification time. -/
def save_cache (cache : JValue) (now : Int) : Option CacheFile :=
  some ⟨String.mk (dumpVal cache), now⟩

/-! ### Python dictionaries with non-string keys -/

/-- A hashable Python dictionary key of the kinds `json.dump` accepts:
strings, integers and booleans. -/
inductive PyKey where
  | str (s : String)
  | int (n : Int)
  | bool (b : Bool)

/-- `json.dump` coerces a non-string dictionary key to its string form. -/
def pyKeyToStr : PyKey → String
  | .str s => s
  | .int n => String.mk (intToChars n)
  | .bool b => if b then "true" else "false"

/-- `json.dump` of a Python dictionary whose keys need not be strings. -/
def dumpPyDict (m : List (PyKey × JValue)) : List Char :=
  dumpVal (.obj (m.map (fun kv => (pyKeyToStr kv.1, kv.2))))

/-- Python `==` between dictionary keys (`True == 1`, but a string never
equals a number). -/
def pyKeyEq : PyKey → PyKey → Bool
  | .str a, .str b => a == b
  | .int a, .int b => a == b
  | .bool a, .bool b => a == b
  | .bool a, .int b => (if a then (1 : Int) else 0) == b
  | .int a, .bool b => a == (if b then (1 : Int) else 0)
  | _, _ => false

/-- Python `==` between two dictionaries: same size and every key of the
first maps, under key equality, to an equal value in the second. -/
def pyDictEq (m1 m2 : List (PyKey × JValue)) : Bool :=
  m1.length == m2.length &&
    m1.all (fun kv =>
      match m2.find? (fun kv2 => pyKeyEq kv.1 kv2.1) with
      | some kv2 => jeq kv.2 kv2.2
      | none => false)

/-- A JSON object read back from disk, viewed as a Python dictionary:
all its keys are strings. -/
def objAsPyDict (kvs : List (String × JValue)) : List (PyKey × JValue) :=
  kvs.map (fun kv => (.str kv.1, kv.2))

/-! ### Dispatcher -/

/-- One call against the messaging API. -/
inductive ApiCall where
  | deleteMessage (chatId : String) (messageId : JValue)
  | sendMessage (chatId : String) (text : String) (parseMode : Option String)

def ApiCall.isSend : ApiCall → Bool
  | .sendMessage _ _ _ => true
  | _ => false

def ApiCall.isDelete : ApiCall → Bool
  | .deleteMessage _ _ => true
  | _ => false

/-- The fixed visual separator between per-task fragments (bot.py 471). -/
def separador : String := "\n\n*\\-\\-\\-\\-\\-\\-*\n\n"

/-- `print_whatsapp_markdown` (bot.py lines 494-497):
`re.sub(r"\\(.)", r"\1", mensagem)` — every backslash followed by a
non-newline character is removed, keeping the character. -/
def stripEscapes : List Char → List Char
  | [] => []
  | [c] => [c]
  | c :: d :: rest =>
    if c = backslashChar ∧ d ≠ '\n' then d :: stripEscapes rest
    else c :: stripEscapes (d :: rest)

/-- `last_message_info.get("date") == current_date`: the stored value must
be a string equal to the current date (Python `==` between a non-string and
a string is `False`, as is `None == current_date`). -/
def dateMatches (last : List (String × JValue)) (current : String) : Bool :=
  match alookup last "date" with
  | some (.str s) => s == current
  | _ => false

/-- `"message_id" in last_message_info`. -/
def hasMessageId (last : List (String × JValue)) : Bool :=
  (alookup last "message_id").isSome

/-- The outcomes of this run's interactions with the messaging API,
supplied as oracles: the identifiers and dates involved and whether each
HTTP call succeeds. -/
structure TelegramEnv where
  chatId : String
  chatIdWpp : String
  currentDate : String
  /-- `message_id` returned by the MarkdownV2 send, `none` on failure. -/
  sendResult : Option Int
  /-- whether the best-effort delete succeeds (never consulted afterwards). -/
  deleteSucceeds : Bool
  /-- result of the plain-text WhatsApp-style send. -/
  sendResultWpp : Option Int

/-- The module-level dispatch logic (bot.py lines 466-507) as a function of
the valid fragments and the loaded last-message record.  Returns the
ordered list of messaging-API calls, the last-message record as persisted
after the run, and the Python exception aborting the run, if any.
When no fragment is valid, nothing is sent and no record is written, but
`mensagem_conjunta` is never assigned, so the unconditional WhatsApp block
at lines 500-506 raises `NameError` before any send. -/
def runDispatch (env : TelegramEnv) (msgsValidas : List String)
    (last : List (String × JValue)) :
    List ApiCall × List (String × JValue) × Option PyErr :=
  match msgsValidas with
  | [] => ([], last, some .nameError)
  | m :: ms =>
    let conj := joinStrings separador (m :: ms)
    let deletes :=
      if dateMatches last env.currentDate && hasMessageId last then
        [ApiCall.deleteMessage env.chatId ((alookup last "message_id").getD .null)]
      else []
    let newLast :=
      match env.sendResult with
      | some mid => [("message_id", JValue.int mid), ("date", JValue.str env.currentDate)]
      | none => last
    let wppText := "```md\n" ++ String.mk (stripEscapes conj.data) ++ "```"
    (deletes ++
       [ApiCall.sendMessage env.chatId conj (some "MarkdownV2"),
        ApiCall.sendMessage env.chatIdWpp wppText (some "Markdown")],
     newLast, none)

/-- The tail of the pipeline: filter the merged collection, render the
fragments, dispatch.  A renderer exception aborts the run before any API
call. -/
def pipelineRun (env : TelegramEnv) (collection : List Tarefa)
    (last : List (String × JValue)) :
    List ApiCall × List (String × JValue) × Option PyErr :=
  match mensagensValidas (collection.filter dispatchFilter) with
  | .error e => ([], last, some e)
  | .ok ms => runDispatch env ms last

/-! ## Theorems -/

/-- C3, counterexample: malformed nested structures on which an extractor
raises instead of returning its default.  A `select` field whose stored
value is `null` (the shape the Notion API uses for an unset select) makes
`extract_select` raise `AttributeError`; a `title` field holding `null`
makes `extract_title` raise `TypeError` (not in its caught classes); a
property whose value is a bare string makes `extract_checkbox` raise
`AttributeError`. -/
theorem c3_counterexample :
    extract_select (.obj [("Tipo", .obj [("select", .null)])]) "Tipo" =
      .error .attributeError ∧
    extract_title (.obj [("T", .obj [("title", .null)])]) "T" = .error .typeError ∧
    extract_checkbox (.obj [("Feito?", .str "x")]) "Feito?" =
      .error .attributeError :=
  ⟨rfl, rfl, rfl⟩

/-- C3, amended: whenever the named field is absent from the property map,
every extractor returns its documented default (empty string, `"No"`,
empty string) without raising; malformed present fields, however, can
raise (see the counterexample). -/
theorem c3_absent_field_defaults (kvs : List (String × JValue)) (name : String)
    (h : alookup kvs name = none) :
    extract_title (.obj kvs) name = .ok "" ∧
    extract_checkbox (.obj kvs) name = .ok "No" ∧
    extract_select (.obj kvs) name = .ok (.str "") ∧
    extract_date (.obj kvs) name = .ok (.str "") ∧
    extract_rich_text (.obj kvs) name = .ok (.str "") := by
  refine ⟨?_, ?_, ?_, ?_, ?_⟩ <;>
    (simp only [extract_title, extract_title_body, extract_checkbox,
      extract_select, extract_date, extract_rich_text, pyGet, h]
     rfl)

/-- C3, witness: the amended theorem applied to the empty property map. -/
theorem c3_witness :
    extract_title (.obj []) "Nome" = .ok "" ∧
    extract_checkbox (.obj []) "Nome" = .ok "No" ∧
    extract_select (.obj []) "Nome" = .ok (.str "") ∧
    extract_date (.obj []) "Nome" = .ok (.str "") ∧
    extract_rich_text (.obj []) "Nome" = .ok (.str "") :=
  c3_absent_field_defaults [] "Nome" rfl

/-- C7, counterexample: a file whose age (86401 seconds) exceeds
`maxAgeDays = 1` day but whose floored whole-day age is not bigger than 1:
the cache is loaded from the file's content, not discarded. -/
theorem c7_counterexample :
    (86401 : Int) - 0 > 1 * 86400 ∧
    check_and_update_cache (some ⟨"\x7b\"a\": 1\x7d", 0⟩) 86401 1 =
      .obj [("a", .int 1)] ∧
    JValue.obj [("a", .int 1)] ≠ .obj [] := by
  refine ⟨by decide, rfl, ?_⟩
  intro h
  injection h with h'
  cases h'

/-- C7, amended: the cache file is discarded wholesale — regardless of its
content — exactly when the *floor* of its age in whole days exceeds
`maxAgeDays`, i.e. when it is at least `maxAgeDays + 1` full days old;
otherwise its content is loaded. -/
theorem c7_stale_iff (content : String) (mtime now maxAge : Int) :
    (Int.fdiv (now - mtime) 86400 > maxAge →
      check_and_update_cache (some ⟨content, mtime⟩) now maxAge = .obj []) ∧
    (¬ Int.fdiv (now - mtime) 86400 > maxAge →
      check_and_update_cache (some ⟨content, mtime⟩) now maxAge =
        load_cache (some ⟨content, mtime⟩)) := by
  constructor <;> intro h <;> simp [check_and_update_cache, h]

/-- C7, witness: a two-day-old file with a one-day threshold is discarded
despite holding a valid JSON object. -/
theorem c7_witness :
    check_and_update_cache (some ⟨"\x7b\"a\": 1\x7d", 0⟩) 172801 1 = .obj [] :=
  (c7_stale_iff "\x7b\"a\": 1\x7d" 0 172801 1).1 (by decide)

/-- C10: the renderer requires a non-null days-remaining: on a task whose
`Dias Restantes` is `None`, the comparison `dias_restantes > 7` raises
`TypeError`, so no value (neither `None` nor a message) is returned. -/
theorem c10_null_days_raises (t : Tarefa) (h : t.diasRestantes = none) :
    gerar_mensagem_tarefa t = .error .typeError := by
  unfold gerar_mensagem_tarefa
  rw [h]

/-- C10, witness: a concrete task with null days-remaining. -/
theorem c10_witness :
    gerar_mensagem_tarefa ⟨"", "No", "", "", "", "", none, "", ""⟩ =
      .error .typeError :=
  c10_null_days_raises ⟨"", "No", "", "", "", "", none, "", ""⟩ rfl

/-! ### C8: the markdown escaper -/

/-- Character-wise escaping with respect to an arbitrary set `R` of already
processed reserved characters. -/
def escWrt (R : List Char) (c : Char) : List Char :=
  if c ∈ R then [backslashChar, c] else [c]

theorem escWrt_reserved : escWrt reservedChars = escChar := by
  funext c
  rfl

theorem replaceChar_escWrt (R : List Char) (c : Char) (hR : c ∉ R)
    (hbs : c ≠ backslashChar) (x : Char) :
    replaceChar c [backslashChar, c] (escWrt R x) = escWrt (R ++ [c]) x := by
  by_cases hx : x ∈ R
  · have hxc : x ≠ c := fun he => hR (he ▸ hx)
    simp [escWrt, hx, replaceChar, Ne.symm hbs, hxc]
  · by_cases hxe : x = c
    · subst hxe
      simp [escWrt, hx, replaceChar]
    · simp [escWrt, hx, hxe, replaceChar]

theorem replaceChar_append (c : Char) (r a b : List Char) :
    replaceChar c r (a ++ b) = replaceChar c r a ++ replaceChar c r b := by
  simp [replaceChar]

theorem replaceChar_flatMap (c : Char) (r : List Char) (f : Char → List Char)
    (s : List Char) :
    replaceChar c r (s.flatMap f) = s.flatMap (fun x => replaceChar c r (f x)) := by
  induction s with
  | nil => rfl
  | cons x s ih =>
    rw [List.flatMap_cons, replaceChar_append, ih, List.flatMap_cons]

theorem escapar_foldl (todo : List Char) :
    ∀ processed : List Char, (∀ c ∈ todo, c ∉ processed) → todo.Nodup →
    (∀ c ∈ todo, c ≠ backslashChar) → ∀ s : List Char,
    todo.foldl (fun acc c => replaceChar c [backslashChar, c] acc)
        (s.flatMap (escWrt processed)) =
      s.flatMap (escWrt (processed ++ todo)) := by
  induction todo with
  | nil =>
    intro processed _ _ _ s
    simp
  | cons c todo ih =>
    intro processed hp hnd hbs s
    have step : replaceChar c [backslashChar, c] (s.flatMap (escWrt processed)) =
        s.flatMap (escWrt (processed ++ [c])) := by
      rw [replaceChar_flatMap]
      exact List.flatMap_congr (fun x _ =>
        replaceChar_escWrt processed c (hp c (List.mem_cons_self c todo))
          (hbs c (List.mem_cons_self c todo)) x)
    have hp' : ∀ c' ∈ todo, c' ∉ processed ++ [c] := by
      intro c' hc'
      simp only [List.mem_append, List.mem_singleton]
      rintro (h1 | h2)
      · exact hp c' (List.mem_cons_of_mem c hc') h1
      · exact (List.nodup_cons.mp hnd).1 (h2 ▸ hc')
    have := ih (processed ++ [c]) hp' (List.nodup_cons.mp hnd).2
      (fun c' hc' => hbs c' (List.mem_cons_of_mem c hc')) s
    simpa [step, List.append_assoc] using this

theorem escapar_eq_flatMap (s : String) :
    escapar_markdown_v2 s = String.mk (s.data.flatMap escChar) := by
  have hnd : reservedChars.Nodup := by decide
  have hbs : ∀ c ∈ reservedChars, c ≠ backslashChar := by decide
  have hnp : ∀ c ∈ reservedChars, c ∉ ([] : List Char) := by simp
  have h := escapar_foldl reservedChars [] hnp hnd hbs s.data
  rw [List.nil_append, escWrt_reserved] at h
  have h0 : ∀ l : List Char, l.flatMap (escWrt []) = l := by
    intro l
    induction l with
    | nil => rfl
    | cons c l ih => simp [List.flatMap_cons, escWrt, ih]
  rw [h0] at h
  unfold escapar_markdown_v2
  exact congrArg String.mk h

theorem escOk_flatMap (l : List Char) (h : ∀ c ∈ l, c ≠ backslashChar) :
    escOkAux 0 (l.flatMap escChar) = true := by
  induction l with
  | nil => rfl
  | cons c l ih =>
    have hc := h c (List.mem_cons_self c l)
    have ihl := ih (fun c' hc' => h c' (List.mem_cons_of_mem c hc'))
    by_cases hr : c ∈ reservedChars
    · have hbs : backslashChar ∉ reservedChars := by decide
      simp [escChar, hr, escOkAux, hbs, hc, ihl]
    · simp [escChar, hr, escOkAux, hc, ihl]

/-- C8, counterexample: on the input backslash-dot, the output is
backslash-backslash-dot — the reserved dot ends up preceded by two
backslashes, so the claimed property fails on this input (and characters
already escaped in the input are double-escaped). -/
theorem c8_counterexample :
    escapar_markdown_v2 "\\." = "\\\\." ∧
    escOk (escapar_markdown_v2 "\\.") = false :=
  ⟨rfl, rfl⟩

/-- C8, amended: the escaper rewrites each character independently, turning
every reserved character into backslash-plus-character and leaving every
other character (including a pre-existing backslash) unchanged;
consequently, for inputs that contain no backslash, every reserved
character of the output is preceded by exactly one backslash. -/
theorem c8_escape_amended (s : String) :
    escapar_markdown_v2 s = String.mk (s.data.flatMap escChar) ∧
    ((∀ c ∈ s.data, c ≠ backslashChar) → escOk (escapar_markdown_v2 s) = true) := by
  refine ⟨escapar_eq_flatMap s, fun h => ?_⟩
  rw [escapar_eq_flatMap]
  exact escOk_flatMap s.data h

/-- C8, witness: the amended theorem applied to a backslash-free input. -/
theorem c8_witness :
    escapar_markdown_v2 "Hello *world* _test_ [link]" =
      "Hello \\*world\\* \\_test\\_ \\[link\\]" ∧
    escOk (escapar_markdown_v2 "Hello *world* _test_ [link]") = true :=
  ⟨rfl, (c8_escape_amended "Hello *world* _test_ [link]").2 (by decide)⟩

/-! ### C1: the dispatch filter and fragment generation -/

/-- C1 (counterexample): a merged-collection record whose due date is the
datetime string `"2025-03-10T09:00:00"` gets days-remaining 4 from
`fromisoformat`, so the dispatch filter passes — yet the renderer raises
`ValueError` in `formatar_data`, whose `strptime("%Y-%m-%d")` rejects the
time suffix, so the record yields no fragment and the claimed equivalence
fails on it. -/
theorem c1_counterexample :
    calculate_days_remaining "2025-03-10T09:00:00" ⟨2025, 3, 6⟩ =
      .ok (some 4) ∧
    dispatchFilter ⟨"", "No", "Prova", "", "Math", "2025-03-10T09:00:00",
      some 4, "d", "T1"⟩ = true ∧
    gerar_mensagem_tarefa ⟨"", "No", "Prova", "", "Math",
      "2025-03-10T09:00:00", some 4, "d", "T1"⟩ = .error .valueError :=
  ⟨rfl, rfl, rfl⟩

/-- C1 (amended): a task record contributes a fragment exactly when its
done field is `"No"`, its days-remaining is non-null and at most 7, and
its due-date string is the literal `"N/D"` or in the date-only `%Y-%m-%d`
form `strptime` accepts; a filtered record with any other due date — such
as a datetime string — raises `ValueError` in the renderer and contributes
nothing. -/
theorem c1_fragment_iff_filter (t : Tarefa) :
    contributesFragment t ↔
      ((t.feito = "No" ∧ ∃ d, t.diasRestantes = some d ∧ d ≤ 7) ∧
        (t.entrega = "N/D" ∨ (strptimeYmd t.entrega).isSome = true)) := by
  constructor
  · rintro ⟨hf, m, hm⟩
    unfold dispatchFilter at hf
    rw [Bool.and_eq_true] at hf
    obtain ⟨hf1, hf2⟩ := hf
    refine ⟨⟨eq_of_beq hf1, ?_⟩, ?_⟩
    · cases hdias : t.diasRestantes with
      | none => rw [hdias] at hf2; cases hf2
      | some d =>
        rw [hdias] at hf2
        exact ⟨d, rfl, by exact_mod_cast of_decide_eq_true hf2⟩
    · cases hdias : t.diasRestantes with
      | none =>
        rw [hdias] at hf2
        cases hf2
      | some d =>
        simp only [gerar_mensagem_tarefa, hdias] at hm
        by_cases hd7 : d > 7
        · rw [if_pos hd7] at hm
          exact Option.noConfusion (Except.ok.inj hm).symm
        · rw [if_neg hd7] at hm
          by_cases hnd : t.entrega = "N/D"
          · exact Or.inl hnd
          · rw [if_pos hnd] at hm
            refine Or.inr ?_
            cases hst : strptimeYmd t.entrega with
            | none =>
              rw [show formatar_data t.entrega = .error .valueError from by
                unfold formatar_data; rw [hst]] at hm
              exact Except.noConfusion hm
            | some dt => rfl
  · rintro ⟨⟨hfeito, d, hd, hle⟩, hdate⟩
    constructor
    · unfold dispatchFilter
      rw [hfeito, hd]
      simp [hle]
    · simp only [gerar_mensagem_tarefa, hd]
      rw [if_neg (show ¬ d > 7 by omega)]
      by_cases hnd : t.entrega = "N/D"
      · rw [if_neg (show ¬ t.entrega ≠ "N/D" from fun h => h hnd)]
        exact ⟨_, rfl⟩
      · rcases hdate with h | hsome
        · exact absurd h hnd
        · obtain ⟨dt, hdt⟩ := Option.isSome_iff_exists.mp hsome
          rw [if_pos hnd, show formatar_data t.entrega =
            .ok (String.mk (natToDigits dt.day) ++ " de " ++ mesNome dt.month)
            from by unfold formatar_data; rw [hdt]]
          exact ⟨_, rfl⟩

/-- C1, witness: a record with done `"No"`, a date-only due date and
days-remaining 3 contributes a fragment; the same record with done `"Yes"`
does not; and a record with null days-remaining (empty due date) never
does. -/
theorem c1_witness :
    contributesFragment
      ⟨"", "No", "Assignment", "", "Math", "2025-03-09", some 3, "d", "T1"⟩ ∧
    ¬ contributesFragment
      ⟨"", "Yes", "Assignment", "", "Math", "2025-03-09", some 3, "d", "T1"⟩ ∧
    ¬ contributesFragment
      ⟨"", "No", "Assignment", "", "Math", "", none, "d", "T1"⟩ := by
  refine ⟨?_, ?_, ?_⟩
  · exact (c1_fragment_iff_filter _).mpr ⟨⟨rfl, 3, rfl, by decide⟩, Or.inr rfl⟩
  · intro hc
    have h := ((c1_fragment_iff_filter _).mp hc).1.1
    exact absurd h (by decide)
  · intro hc
    obtain ⟨⟨_, d, hd, _⟩, _⟩ := (c1_fragment_iff_filter _).mp hc
    cases hd

/-! ### C2: the relation resolver -/

theorem resolveOneS_cons (env : NotionEnv) (cache : List (String × String))
    (relId t : String) (h : alookup cache relId = none)
    (ht : fetchTitle env relId = some t) (j : String) :
    resolveOneS env ((relId, t) :: cache) j = resolveOneS env cache j := by
  unfold resolveOneS
  by_cases hj : relId = j
  · subst hj
    simp [alookup, h, ht]
  · simp [alookup, hj]

/-- The threaded title cache of the resolver loop does not change which
titles come out: the fold produces exactly the stateless resolution of each
identifier against the initial cache, in order. -/
theorem resolve_fold_titles (env : NotionEnv) (ids : List String) :
    ∀ (cache : List (String × String)) (ts : List String),
    (ids.foldl (resolveStep env) (cache, ts)).2 =
      ts ++ ids.filterMap (resolveOneS env cache) := by
  induction ids with
  | nil =>
    intro cache ts
    simp
  | cons relId rest ih =>
    intro cache ts
    cases hl : alookup cache relId with
    | some t =>
      simp only [List.foldl_cons, resolveStep, hl]
      rw [ih cache (ts ++ [t])]
      simp [List.filterMap_cons, resolveOneS, hl]
    | none =>
      cases hf : fetchTitle env relId with
      | some title =>
        simp only [List.foldl_cons, resolveStep, hl, hf]
        rw [ih ((relId, title) :: cache) (ts ++ [title])]
        have hcong : rest.filterMap (resolveOneS env ((relId, title) :: cache)) =
            rest.filterMap (resolveOneS env cache) :=
          congrArg (fun f => rest.filterMap f)
            (funext (resolveOneS_cons env cache relId title hl hf))
        rw [hcong]
        simp [List.filterMap_cons, resolveOneS, hl, hf]
      | none =>
        simp only [List.foldl_cons, resolveStep, hl, hf]
        rw [ih cache (ts ++ [])]
        simp [List.filterMap_cons, resolveOneS, hl, hf]

/-- C2, counterexample: an empty relation list returns the empty string
(bot.py lines 210-211), not the sentinel the claim requires. -/
theorem c2_counterexample :
    extract_relation_titles ⟨fun _ => none, fun _ => none⟩ [("A", "Biology")] [] = "" ∧
    ("" : String) ≠ "Nenhuma relação encontrada" :=
  ⟨rfl, by decide⟩

/-- C2, amended: an *empty* identifier list yields the empty string; a
*non-empty* list yields the `", "`-join of exactly the titles that the
identifiers resolve to against the initial cache (failing identifiers
silently omitted, the threaded cache making no difference), except that the
sentinel is returned when that join is empty — in particular when every
identifier fails. -/
theorem c2_resolver_amended (env : NotionEnv) (cache : List (String × String))
    (relations : List String) (hne : relations ≠ []) :
    extract_relation_titles env cache relations =
      (if joinStrings ", " (relations.filterMap (resolveOneS env cache)) = ""
       then "Nenhuma relação encontrada"
       else joinStrings ", " (relations.filterMap (resolveOneS env cache))) ∧
    extract_relation_titles env cache [] = "" := by
  refine ⟨?_, rfl⟩
  have hemp : relations.isEmpty = false := by
    cases relations with
    | nil => exact absurd rfl hne
    | cons a l => rfl
  have h := resolve_fold_titles env relations cache []
  rw [List.nil_append] at h
  simp only [extract_relation_titles, hemp, Bool.false_eq_true, if_false, h]

/-- C2, witness: the amended theorem at the claim's scenario — identifiers
`[A, B]`, `A` cached as `"Biology"`, `B` failing to resolve — gives exactly
`"Biology"`. -/
theorem c2_witness :
    extract_relation_titles ⟨fun _ => none, fun _ => none⟩ [("A", "Biology")]
      ["A", "B"] = "Biology" := by
  have h := (c2_resolver_amended ⟨fun _ => none, fun _ => none⟩ [("A", "Biology")]
    ["A", "B"] (by simp)).1
  rw [h]
  rfl

/-! ### C5 and C6: the dispatcher -/

/-- C5: when fragments exist and the recorded last-message has an
identifier whose recorded date equals the current date, the API calls of
the run are exactly a delete of that identifier followed by the two sends —
the delete precedes the send, and the sends appear for every possible
delete outcome (`env.deleteSucceeds` is arbitrary and unused); when the
recorded date does not match the current date, no delete is issued. -/
theorem c5_delete_before_send (env : TelegramEnv) (ms : List String)
    (last : List (String × JValue)) (hne : ms ≠ []) :
    (∀ mid, alookup last "message_id" = some mid →
      dateMatches last env.currentDate = true →
      (runDispatch env ms last).1 =
        [ApiCall.deleteMessage env.chatId mid,
         ApiCall.sendMessage env.chatId (joinStrings separador ms) (some "MarkdownV2"),
         ApiCall.sendMessage env.chatIdWpp
           ("```md\n" ++ String.mk (stripEscapes (joinStrings separador ms).data) ++
             "```")
           (some "Markdown")]) ∧
    (dateMatches last env.currentDate = false →
      ∀ e ∈ (runDispatch env ms last).1, e.isDelete = false) := by
  cases ms with
  | nil => exact absurd rfl hne
  | cons m tail =>
    constructor
    · intro mid hid hdm
      simp [runDispatch, hdm, hasMessageId, hid]
    · intro hdm e he
      simp [runDispatch, hdm] at he
      rcases he with h | h <;> rw [h] <;> rfl

/-- C5, witness: with a same-day record `{message_id: 42, date: 2025-03-06}`
the calls are delete-42 then the two sends; with the record dated a day
earlier, no delete appears. -/
theorem c5_witness :
    (runDispatch ⟨"chatMain", "chatWpp", "2025-03-06", some 99, true, some 100⟩
        ["msg"] [("message_id", .int 42), ("date", .str "2025-03-06")]).1 =
      [ApiCall.deleteMessage "chatMain" (.int 42),
       ApiCall.sendMessage "chatMain" "msg" (some "MarkdownV2"),
       ApiCall.sendMessage "chatWpp" "```md\nmsg```" (some "Markdown")] ∧
    (∀ e ∈ (runDispatch ⟨"chatMain", "chatWpp", "2025-03-06", some 99, false, some 100⟩
        ["msg"] [("message_id", .int 42), ("date", .str "2025-03-05")]).1,
      e.isDelete = false) := by
  constructor
  · have h := (c5_delete_before_send
      ⟨"chatMain", "chatWpp", "2025-03-06", some 99, true, some 100⟩ ["msg"]
      [("message_id", .int 42), ("date", .str "2025-03-06")] (by simp)).1
      (.int 42) rfl rfl
    rw [h]
    rfl
  · exact (c5_delete_before_send
      ⟨"chatMain", "chatWpp", "2025-03-06", some 99, false, some 100⟩ ["msg"]
      [("message_id", .int 42), ("date", .str "2025-03-05")] (by simp)).2 rfl

/-- C6: when no record of the merged collection matches the dispatch filter,
the run issues no messaging-API call at all — in particular no send on
either channel — and the persisted last-dispatch record is unchanged; the
run then aborts with a `NameError` (the unconditional WhatsApp block reads
the never-assigned `mensagem_conjunta`). -/
theorem c6_no_match_no_send (env : TelegramEnv) (collection : List Tarefa)
    (last : List (String × JValue))
    (h : ∀ t ∈ collection, dispatchFilter t = false) :
    (pipelineRun env collection last).1 = [] ∧
    (∀ e ∈ (pipelineRun env collection last).1, e.isSend = false) ∧
    (pipelineRun env collection last).2.1 = last ∧
    (pipelineRun env collection last).2.2 = some .nameError := by
  have hfilter : collection.filter dispatchFilter = [] := by
    rw [List.filter_eq_nil_iff]
    intro t ht
    rw [h t ht]
    exact Bool.false_ne_true
  unfold pipelineRun
  rw [hfilter]
  refine ⟨rfl, ?_, rfl, rfl⟩
  intro e he
  cases he

/-- C6, witness: a collection holding a single done task (filtered out)
produces no API call and leaves the record alone. -/
theorem c6_witness :
    (pipelineRun ⟨"chatMain", "chatWpp", "2025-03-06", some 99, true, some 100⟩
        [⟨"", "Yes", "Assignment", "", "Math", "2025-03-09", some 3, "d", "T"⟩]
        [("message_id", .int 42), ("date", .str "2025-03-06")]).1 = [] ∧
    (pipelineRun ⟨"chatMain", "chatWpp", "2025-03-06", some 99, true, some 100⟩
        [⟨"", "Yes", "Assignment", "", "Math", "2025-03-09", some 3, "d", "T"⟩]
        [("message_id", .int 42), ("date", .str "2025-03-06")]).2.1 =
      [("message_id", .int 42), ("date", .str "2025-03-06")] := by
  have h := c6_no_match_no_send
    ⟨"chatMain", "chatWpp", "2025-03-06", some 99, true, some 100⟩
    [⟨"", "Yes", "Assignment", "", "Math", "2025-03-09", some 3, "d", "T"⟩]
    [("message_id", .int 42), ("date", .str "2025-03-06")]
    (by intro t ht; simp at ht; rw [ht]; rfl)
  exact ⟨h.1, h.2.2.1⟩

/-! ### C9: the JSON round trip — character, digit and number lemmas -/

theorem string_mk_data (s : String) : String.mk s.data = s := by
  cases s
  rfl

/-- Every `Char` is a Unicode scalar value: below the surrogate range or
between it and `0x110000`. -/
theorem char_toNat_bounds (c : Char) :
    c.toNat < 55296 ∨ (57344 ≤ c.toNat ∧ c.toNat < 1114112) := by
  have he : c.toNat = c.val.toNat := rfl
  rcases c.valid with h | ⟨h1, h2⟩
  · exact Or.inl (by omega)
  · exact Or.inr ⟨by omega, by omega⟩

theorem hexVal_hexDigitChar (k : Nat) (h : k < 16) :
    hexVal (hexDigitChar k) = some k := by
  interval_cases k <;> rfl

theorem decodeHex4_hex4 (n : Nat) (h : n < 65536) :
    decodeHex4 (hexDigitChar (n / 4096 % 16)) (hexDigitChar (n / 256 % 16))
      (hexDigitChar (n / 16 % 16)) (hexDigitChar (n % 16)) = some n := by
  have h1 := hexVal_hexDigitChar (n / 4096 % 16) (Nat.mod_lt _ (by omega))
  have h2 := hexVal_hexDigitChar (n / 256 % 16) (Nat.mod_lt _ (by omega))
  have h3 := hexVal_hexDigitChar (n / 16 % 16) (Nat.mod_lt _ (by omega))
  have h4 := hexVal_hexDigitChar (n % 16) (Nat.mod_lt _ (by omega))
  unfold decodeHex4
  rw [h1, h2, h3, h4]
  show some (n / 4096 % 16 * 4096 + n / 256 % 16 * 256 + n / 16 % 16 * 16 + n % 16) =
    some n
  exact congrArg some (by omega)

theorem natToDigitsAux_eq (f : Nat) : ∀ (g n : Nat), n < f → n < g →
    natToDigitsAux f n = natToDigitsAux g n := by
  induction f with
  | zero =>
    intro g n h
    omega
  | succ f ihf =>
    intro g n hf hg
    cases g with
    | zero => omega
    | succ g =>
      by_cases h10 : n < 10
      · simp [natToDigitsAux, h10]
      · simp only [natToDigitsAux, if_neg h10]
        rw [ihf g (n / 10) (by omega) (by omega)]

theorem natToDigitsAux_eq_natToDigits (f n : Nat) (h : n < f) :
    natToDigitsAux f n = natToDigits n :=
  natToDigitsAux_eq f (n + 1) n h (by omega)

theorem natToDigitsAux_digits (f : Nat) : ∀ n, n < f →
    ∀ c ∈ natToDigitsAux f n, c.isDigit = true := by
  induction f with
  | zero =>
    intro n h
    omega
  | succ f ihf =>
    intro n hf c hc
    by_cases h10 : n < 10
    · simp only [natToDigitsAux, if_pos h10, List.mem_singleton] at hc
      subst hc
      interval_cases n <;> rfl
    · simp only [natToDigitsAux, if_neg h10, List.mem_append,
        List.mem_singleton] at hc
      rcases hc with hc | hc
      · exact ihf (n / 10) (by omega) c hc
      · subst hc
        have hm : n % 10 < 10 := Nat.mod_lt _ (by omega)
        set m := n % 10 with hmdef
        interval_cases m <;> rfl

theorem natToDigits_digits (n : Nat) : ∀ c ∈ natToDigits n, c.isDigit = true :=
  natToDigitsAux_digits (n + 1) n (by omega)

theorem natToDigitsAux_ne_nil (f n : Nat) (h : n < f) :
    natToDigitsAux f n ≠ [] := by
  cases f with
  | zero => omega
  | succ f => by_cases h10 : n < 10 <;> simp [natToDigitsAux, h10]

theorem natToDigitsAux_head_ne_zero (f : Nat) : ∀ n, n < f → n ≠ 0 →
    ∀ ds, natToDigitsAux f n ≠ '0' :: ds := by
  induction f with
  | zero =>
    intro n h
    omega
  | succ f ihf =>
    intro n hf hn ds
    by_cases h10 : n < 10
    · simp only [natToDigitsAux, if_pos h10]
      interval_cases n
      · exact absurd rfl hn
      all_goals
        intro he
        injection he with h1 _
        exact absurd h1 (by decide)
    · simp only [natToDigitsAux, if_neg h10]
      intro he
      cases haux : natToDigitsAux f (n / 10) with
      | nil => exact natToDigitsAux_ne_nil f (n / 10) (by omega) haux
      | cons a t =>
        rw [haux, List.cons_append] at he
        injection he with h1 _
        exact ihf (n / 10) (by omega) (by omega) t (by rw [haux, h1])

theorem digitsToNat_append (acc : Nat) (xs ys : List Char) :
    digitsToNat acc (xs ++ ys) = digitsToNat (digitsToNat acc xs) ys := by
  induction xs generalizing acc with
  | nil => rfl
  | cons x xs ih =>
    rw [List.cons_append]
    show digitsToNat (acc * 10 + (x.toNat - 48)) (xs ++ ys) = _
    rw [ih]
    rfl

theorem digits_step (acc n L : Nat) :
    (acc * 10 ^ L + n / 10) * 10 + n % 10 = acc * 10 ^ (L + 1) + n := by
  rw [show (acc * 10 ^ L + n / 10) * 10 + n % 10 =
    acc * (10 ^ L * 10) + (n / 10 * 10 + n % 10) by ring, Nat.div_add_mod',
    ← pow_succ]

theorem digitsToNat_natToDigitsAux (f : Nat) : ∀ n acc, n < f →
    digitsToNat acc (natToDigitsAux f n) =
      acc * 10 ^ (natToDigitsAux f n).length + n := by
  induction f with
  | zero =>
    intro n acc h
    omega
  | succ f ihf =>
    intro n acc hf
    by_cases h10 : n < 10
    · have hc : (Char.ofNat (48 + n)).toNat = 48 + n := by
        interval_cases n <;> rfl
      rw [show natToDigitsAux (f + 1) n = [Char.ofNat (48 + n)] from by
        simp [natToDigitsAux, h10]]
      show acc * 10 + ((Char.ofNat (48 + n)).toNat - 48) =
        acc * 10 ^ ([Char.ofNat (48 + n)] : List Char).length + n
      rw [hc]
      show acc * 10 + (48 + n - 48) = acc * 10 ^ 1 + n
      rw [pow_one]
      omega
    · have hm : (Char.ofNat (48 + n % 10)).toNat = 48 + n % 10 := by
        have hlt : n % 10 < 10 := Nat.mod_lt _ (by omega)
        set m := n % 10 with hmdef
        interval_cases m <;> rfl
      rw [show natToDigitsAux (f + 1) n =
          natToDigitsAux f (n / 10) ++ [Char.ofNat (48 + n % 10)] from by
        simp [natToDigitsAux, h10]]
      rw [digitsToNat_append, List.length_append, List.length_singleton,
        ihf (n / 10) acc (by omega)]
      calc digitsToNat (acc * 10 ^ (natToDigitsAux f (n / 10)).length + n / 10)
            [Char.ofNat (48 + n % 10)]
          = (acc * 10 ^ (natToDigitsAux f (n / 10)).length + n / 10) * 10 +
              ((Char.ofNat (48 + n % 10)).toNat - 48) := rfl
        _ = (acc * 10 ^ (natToDigitsAux f (n / 10)).length + n / 10) * 10 +
              n % 10 := by
            rw [hm, Nat.add_sub_cancel_left]
        _ = acc * 10 ^ ((natToDigitsAux f (n / 10)).length + 1) + n :=
            digits_step acc n (natToDigitsAux f (n / 10)).length

theorem digitsToNat_natToDigits (n : Nat) : digitsToNat 0 (natToDigits n) = n := by
  have h := digitsToNat_natToDigitsAux (n + 1) n 0 (by omega)
  simpa using h

theorem takeDigits_append (ds rest : List Char)
    (hds : ∀ c ∈ ds, c.isDigit = true)
    (hrest : ∀ c t, rest = c :: t → c.isDigit = false) :
    takeDigits (ds ++ rest) = (ds, rest) := by
  induction ds with
  | nil =>
    cases rest with
    | nil => rfl
    | cons c t => simp [takeDigits, hrest c t rfl]
  | cons d ds ih =>
    have hd := hds d (List.mem_cons_self d ds)
    simp [takeDigits, hd, ih (fun c hc => hds c (List.mem_cons_of_mem d hc))]

/-- The continuation constraint a JSON number needs: what follows must not
extend the number (no digit, no fraction, no exponent). -/
def numRestOk (rest : List Char) : Prop :=
  ∀ c t, rest = c :: t → c.isDigit = false ∧ c ≠ '.' ∧ c ≠ 'e' ∧ c ≠ 'E'

theorem parseNumberCore_digits (m : Nat) (neg : Bool) (rest : List Char)
    (hrest : numRestOk rest) :
    parseNumberCore neg (natToDigits m ++ rest) =
      some (.int (if neg then -(m : Int) else (m : Int)), rest) := by
  have hdig : ∀ c ∈ natToDigits m, c.isDigit = true := natToDigits_digits _
  have htake : takeDigits (natToDigits m ++ rest) = (natToDigits m, rest) :=
    takeDigits_append _ _ hdig (fun c t ht => ((hrest c t ht).1))
  obtain ⟨d0, ds, hds⟩ : ∃ d0 ds, natToDigits m = d0 :: ds := by
    cases h : natToDigits m with
    | nil => exact absurd h (natToDigitsAux_ne_nil _ _ (by omega))
    | cons a t => exact ⟨a, t, rfl⟩
  have hlead : ¬ (d0 = '0' ∧ ds ≠ []) := by
    rintro ⟨h0, hne⟩
    by_cases hz : m = 0
    · rw [hz, show natToDigits 0 = ['0'] from rfl] at hds
      injection hds with h1 h2
      exact hne h2.symm
    · rw [h0] at hds
      exact natToDigitsAux_head_ne_zero _ m (by omega) hz ds hds
  have hval : digitsToNat 0 (d0 :: ds) = m := by
    rw [← hds, digitsToNat_natToDigits]
  simp only [parseNumberCore]
  rw [htake]
  simp only [hds]
  rw [if_neg hlead]
  cases rest with
  | nil =>
    rw [hval]
  | cons r0 rt =>
    obtain ⟨h1, h2, h3, h4⟩ := hrest r0 rt rfl
    have hcond : (r0.isDigit || r0 == '.' || r0 == 'e' || r0 == 'E') = false := by
      simp [h1, h2, h3, h4]
    simp only [hcond, Bool.false_eq_true, if_false, hval]

theorem parseNumber_intToChars (n : Int) (rest : List Char) (hrest : numRestOk rest) :
    parseNumber (intToChars n ++ rest) = some (.int n, rest) := by
  by_cases hneg : n < 0
  · have hi : intToChars n = '-' :: natToDigits n.natAbs := by
      simp [intToChars, hneg]
    rw [hi, List.cons_append]
    show parseNumberCore true (natToDigits n.natAbs ++ rest) = some (.int n, rest)
    rw [parseNumberCore_digits n.natAbs true rest hrest]
    have he : -(↑n.natAbs : Int) = n := by omega
    rw [if_pos rfl, he]
  · have hi : intToChars n = natToDigits n.natAbs := by
      simp [intToChars, hneg]
    obtain ⟨d0, ds, hds⟩ : ∃ d0 ds, natToDigits n.natAbs = d0 :: ds := by
      cases h : natToDigits n.natAbs with
      | nil => exact absurd h (natToDigitsAux_ne_nil _ _ (by omega))
      | cons a t => exact ⟨a, t, rfl⟩
    have hd0 : d0 ≠ '-' := by
      intro he
      have hin := natToDigits_digits n.natAbs d0
        (by rw [hds]; exact List.mem_cons_self d0 ds)
      rw [he] at hin
      exact absurd hin (by decide)
    rw [hi, hds, List.cons_append]
    show parseNumber (d0 :: (ds ++ rest)) = some (.int n, rest)
    rw [show parseNumber (d0 :: (ds ++ rest)) =
        parseNumberCore false (d0 :: (ds ++ rest)) from by
      simp [parseNumber, hd0]]
    rw [← List.cons_append, ← hds,
      parseNumberCore_digits n.natAbs false rest hrest]
    have he : (↑n.natAbs : Int) = n := by omega
    rw [if_neg (by decide), he]

/-- A lone `\uXXXX` escape outside the surrogate ranges decodes to the
scalar it denotes. -/
theorem decodeEscape_u_single (a b c2 d : Char) (T : List Char) (n : Nat)
    (h : decodeHex4 a b c2 d = some n)
    (h1 : ¬ (55296 ≤ n ∧ n ≤ 56319)) (h2 : ¬ (56320 ≤ n ∧ n ≤ 57343)) :
    decodeEscape ('u' :: a :: b :: c2 :: d :: T) = some (Char.ofNat n, T) := by
  simp [decodeEscape, quoteChar, backslashChar, h, h1, h2]

/-- A high-surrogate `\uXXXX` followed by a low-surrogate `\uXXXX` decodes
to the combined astral scalar. -/
theorem decodeEscape_u_pair (a b c2 d a2 b2 c3 d2 : Char) (T : List Char)
    (n n2 : Nat)
    (h : decodeHex4 a b c2 d = some n)
    (hp : decodeHex4 a2 b2 c3 d2 = some n2)
    (h1 : 55296 ≤ n ∧ n ≤ 56319) (h2 : 56320 ≤ n2 ∧ n2 ≤ 57343) :
    decodeEscape ('u' :: a :: b :: c2 :: d :: backslashChar :: 'u' ::
        a2 :: b2 :: c3 :: d2 :: T) =
      some (Char.ofNat (65536 + (n - 55296) * 1024 + (n2 - 56320)), T) := by
  simp [decodeEscape, quoteChar, backslashChar, h, hp, h1, h2]

/-- The escaping of one character is either the character itself (printable
ASCII other than quote and backslash) or a backslash-headed sequence the
escape decoder inverts. -/
theorem jsonEscapeChar_spec (c : Char) :
    (jsonEscapeChar c = [c] ∧ c ≠ quoteChar ∧ c ≠ backslashChar ∧
      ¬ c.toNat < 32) ∨
    (∃ tail, jsonEscapeChar c = backslashChar :: tail ∧
      ∀ T, decodeEscape (tail ++ T) = some (c, T)) := by
  by_cases h1 : c = quoteChar
  · subst h1
    exact Or.inr ⟨[quoteChar], rfl, fun T => rfl⟩
  · by_cases h2 : c = backslashChar
    · subst h2
      exact Or.inr ⟨[backslashChar], rfl, fun T => rfl⟩
    · by_cases h3 : c = '\n'
      · subst h3
        exact Or.inr ⟨['n'], rfl, fun T => rfl⟩
      · by_cases h4 : c = '\r'
        · subst h4
          exact Or.inr ⟨['r'], rfl, fun T => rfl⟩
        · by_cases h5 : c = '\t'
          · subst h5
            exact Or.inr ⟨['t'], rfl, fun T => rfl⟩
          · by_cases h6 : c.toNat = 8
            · have hesc : jsonEscapeChar c = [backslashChar, 'b'] := by
                unfold jsonEscapeChar
                rw [if_neg h1, if_neg h2, if_neg h3, if_neg h4, if_neg h5,
                  if_pos h6]
              have hch : Char.ofNat 8 = c := by
                rw [← h6]
                exact Char.ofNat_toNat c
              refine Or.inr ⟨['b'], hesc, fun T => ?_⟩
              show some (Char.ofNat 8, T) = some (c, T)
              rw [hch]
            · by_cases h7 : c.toNat = 12
              · have hesc : jsonEscapeChar c = [backslashChar, 'f'] := by
                  unfold jsonEscapeChar
                  rw [if_neg h1, if_neg h2, if_neg h3, if_neg h4, if_neg h5,
                    if_neg h6, if_pos h7]
                have hch : Char.ofNat 12 = c := by
                  rw [← h7]
                  exact Char.ofNat_toNat c
                refine Or.inr ⟨['f'], hesc, fun T => ?_⟩
                show some (Char.ofNat 12, T) = some (c, T)
                rw [hch]
              · by_cases h8 : c.toNat < 32 ∨ 126 < c.toNat
                · by_cases h9 : c.toNat < 65536
                  · -- single `\uXXXX` escape of a BMP scalar
                    have hesc : jsonEscapeChar c =
                        backslashChar :: 'u' :: hex4 c.toNat := by
                      unfold jsonEscapeChar
                      rw [if_neg h1, if_neg h2, if_neg h3, if_neg h4,
                        if_neg h5, if_neg h6, if_neg h7, if_pos h8, if_pos h9]
                    have hdec := decodeHex4_hex4 c.toNat h9
                    have hbound := char_toNat_bounds c
                    refine Or.inr ⟨'u' :: hex4 c.toNat, hesc, fun T => ?_⟩
                    have e1 : ('u' :: hex4 c.toNat) ++ T =
                        'u' :: hexDigitChar (c.toNat / 4096 % 16) ::
                          hexDigitChar (c.toNat / 256 % 16) ::
                          hexDigitChar (c.toNat / 16 % 16) ::
                          hexDigitChar (c.toNat % 16) :: T := by
                      simp [hex4]
                    rw [e1, decodeEscape_u_single _ _ _ _ T c.toNat hdec
                      (by omega) (by omega), Char.ofNat_toNat]
                  · -- astral scalar: surrogate pair
                    have hbound := char_toNat_bounds c
                    have hesc : jsonEscapeChar c =
                        backslashChar :: ('u' ::
                          hex4 (55296 + (c.toNat - 65536) / 1024) ++
                          (backslashChar :: 'u' ::
                            hex4 (56320 + (c.toNat - 65536) % 1024))) := by
                      unfold jsonEscapeChar
                      rw [if_neg h1, if_neg h2, if_neg h3, if_neg h4,
                        if_neg h5, if_neg h6, if_neg h7, if_pos h8, if_neg h9]
                      rfl
                    have hhi := decodeHex4_hex4
                      (55296 + (c.toNat - 65536) / 1024) (by omega)
                    have hlo := decodeHex4_hex4
                      (56320 + (c.toNat - 65536) % 1024) (by omega)
                    refine Or.inr ⟨'u' :: hex4 (55296 + (c.toNat - 65536) / 1024) ++
                      (backslashChar :: 'u' ::
                        hex4 (56320 + (c.toNat - 65536) % 1024)), hesc, fun T => ?_⟩
                    have e1 : ('u' :: hex4 (55296 + (c.toNat - 65536) / 1024) ++
                        (backslashChar :: 'u' ::
                          hex4 (56320 + (c.toNat - 65536) % 1024))) ++ T =
                        'u' :: hexDigitChar ((55296 + (c.toNat - 65536) / 1024) / 4096 % 16) ::
                          hexDigitChar ((55296 + (c.toNat - 65536) / 1024) / 256 % 16) ::
                          hexDigitChar ((55296 + (c.toNat - 65536) / 1024) / 16 % 16) ::
                          hexDigitChar ((55296 + (c.toNat - 65536) / 1024) % 16) ::
                          backslashChar :: 'u' ::
                          hexDigitChar ((56320 + (c.toNat - 65536) % 1024) / 4096 % 16) ::
                          hexDigitChar ((56320 + (c.toNat - 65536) % 1024) / 256 % 16) ::
                          hexDigitChar ((56320 + (c.toNat - 65536) % 1024) / 16 % 16) ::
                          hexDigitChar ((56320 + (c.toNat - 65536) % 1024) % 16) :: T := by
                      simp [hex4]
                    rw [e1, decodeEscape_u_pair _ _ _ _ _ _ _ _ T _ _ hhi hlo
                      ⟨by omega, by omega⟩ ⟨by omega, by omega⟩]
                    have harith : 65536 +
                        (55296 + (c.toNat - 65536) / 1024 - 55296) * 1024 +
                        (56320 + (c.toNat - 65536) % 1024 - 56320) = c.toNat := by
                      omega
                    rw [harith, Char.ofNat_toNat]
                · -- printable ASCII other than quote and backslash
                  have hesc : jsonEscapeChar c = [c] := by
                    unfold jsonEscapeChar
                    rw [if_neg h1, if_neg h2, if_neg h3, if_neg h4, if_neg h5,
                      if_neg h6, if_neg h7, if_neg h8]
                  exact Or.inl ⟨hesc, h1, h2, by omega⟩

/-- Decoding inverts the JSON string escaping, character by character. -/
theorem parseStringBodyF_escape (cs : List Char) : ∀ (f : Nat) (rest : List Char),
    cs.length < f →
    parseStringBodyF f (cs.flatMap jsonEscapeChar ++ quoteChar :: rest) =
      some (cs, rest) := by
  induction cs with
  | nil =>
    intro f rest hf
    cases f with
    | zero => omega
    | succ f =>
      show parseStringBodyF (f + 1) (quoteChar :: rest) = some ([], rest)
      rfl
  | cons c cs ih =>
    intro f rest hf
    cases f with
    | zero => omega
    | succ f =>
      have ihf := ih f rest
        (by simp only [List.length_cons] at hf; omega)
      rw [List.flatMap_cons, List.append_assoc]
      rcases jsonEscapeChar_spec c with ⟨hesc, hq, hb, hge⟩ | ⟨tail, hesc, hdec⟩
      · rw [hesc, List.singleton_append]
        simp only [parseStringBodyF]
        rw [if_neg hq, if_neg hb, if_neg hge, ihf, Option.map_some']
      · rw [hesc, List.cons_append]
        simp only [parseStringBodyF]
        rw [if_neg (show ¬ backslashChar = quoteChar from by decide)]
        rw [if_pos trivial]
        simp only [hdec (cs.flatMap jsonEscapeChar ++ quoteChar :: rest)]
        rw [ihf, Option.map_some']

/-- Escaping never shortens a character list. -/
theorem length_le_length_flatMap_escape (cs : List Char) :
    cs.length ≤ (cs.flatMap jsonEscapeChar).length := by
  induction cs with
  | nil => simp
  | cons c cs ih =>
    rw [List.flatMap_cons, List.length_append, List.length_cons]
    have h1 : 1 ≤ (jsonEscapeChar c).length := by
      unfold jsonEscapeChar
      repeat' split
      all_goals simp [hex4]
    omega

theorem parseStringBody_escape (cs : List Char) (rest : List Char) :
    parseStringBody (cs.flatMap jsonEscapeChar ++ quoteChar :: rest) =
      some (cs, rest) := by
  unfold parseStringBody
  apply parseStringBodyF_escape
  have h := length_le_length_flatMap_escape cs
  simp only [List.length_append, List.length_cons]
  omega


/-! ### The C9 round trip: sizes and parser-head lemmas -/

mutual

/-- Structural size of a value: a fuel bound for the recursive parser. -/
def sizeV : JValue → Nat
  | .null => 1
  | .bool _ => 1
  | .int _ => 1
  | .str _ => 1
  | .arr l => 1 + sizeA l
  | .obj m => 1 + sizeO m
termination_by structural v => v

def sizeA : List JValue → Nat
  | [] => 1
  | x :: xs => 1 + max (sizeV x) (sizeA xs)
termination_by structural l => l

def sizeKV : String × JValue → Nat
  | (_, v) => 1 + sizeV v
termination_by structural kv => kv

def sizeO : List (String × JValue) → Nat
  | [] => 1
  | kv :: kvs => 1 + max (sizeKV kv) (sizeO kvs)
termination_by structural l => l

end

theorem sizeV_pos (v : JValue) : 1 ≤ sizeV v := by
  cases v <;> simp [sizeV]

theorem sizeA_pos (xs : List JValue) : 1 ≤ sizeA xs := by
  cases xs <;> simp [sizeA]

theorem sizeKV_pos (kv : String × JValue) : 1 ≤ sizeKV kv := by
  obtain ⟨k, v⟩ := kv
  simp [sizeKV]

theorem sizeO_pos (kvs : List (String × JValue)) : 1 ≤ sizeO kvs := by
  cases kvs <;> simp [sizeO]

mutual

theorem sizeV_le_length : ∀ v : JValue, sizeV v ≤ (dumpVal v).length + 1
  | .null => by simp [sizeV, dumpVal]
  | .bool b => by cases b <;> simp [sizeV, dumpVal]
  | .int n => by simp [sizeV, dumpVal]
  | .str s => by simp [sizeV, dumpVal]
  | .arr [] => by simp [sizeV, sizeA, dumpVal]
  | .arr (x :: xs) => by
    have h1 := sizeV_le_length x
    have h2 := sizeA_le_length xs
    simp [sizeV, sizeA, dumpVal]
    omega
  | .obj [] => by simp [sizeV, sizeO, dumpVal]
  | .obj (kv :: kvs) => by
    have h1 := sizeKV_le_length kv
    have h2 := sizeO_le_length kvs
    simp [sizeV, sizeO, dumpVal]
    omega

theorem sizeA_le_length : ∀ xs : List JValue, sizeA xs ≤ (dumpArrRest xs).length + 1
  | [] => by simp [sizeA, dumpArrRest]
  | x :: xs => by
    have h1 := sizeV_le_length x
    have h2 := sizeA_le_length xs
    simp [sizeA, dumpArrRest]
    omega

theorem sizeKV_le_length : ∀ kv : String × JValue, sizeKV kv ≤ (dumpKV kv).length + 1
  | (k, v) => by
    have h1 := sizeV_le_length v
    simp [sizeKV, dumpKV]
    omega

theorem sizeO_le_length :
    ∀ kvs : List (String × JValue), sizeO kvs ≤ (dumpObjRest kvs).length + 1
  | [] => by simp [sizeO, dumpObjRest]
  | kv :: kvs => by
    have h1 := sizeKV_le_length kv
    have h2 := sizeO_le_length kvs
    simp [sizeO, dumpObjRest]
    omega

end

theorem skipWs_cons (c : Char) (t : List Char) (h : isWsChar c = false) :
    skipWs (c :: t) = c :: t := by
  simp [skipWs, h]

theorem parseVal_ws (f : Nat) (s : List Char) :
    parseVal f (' ' :: s) = parseVal f s := by
  cases f with
  | zero => rfl
  | succ f =>
    show parseVal (f + 1) (' ' :: s) = parseVal (f + 1) s
    simp only [parseVal]
    rw [show skipWs (' ' :: s) = skipWs s from rfl]

theorem parseMember_ws (f : Nat) (s : List Char) :
    parseMember f (' ' :: s) = parseMember f s := by
  cases f with
  | zero => rfl
  | succ f =>
    show parseMember (f + 1) (' ' :: s) = parseMember (f + 1) s
    simp only [parseMember]
    rw [show skipWs (' ' :: s) = skipWs s from rfl]

theorem isDigit_toNat (c : Char) (h : c.isDigit = true) :
    48 ≤ c.toNat ∧ c.toNat ≤ 57 := by
  simp [Char.isDigit] at h
  obtain ⟨h1, h2⟩ := h
  rw [UInt32.le_def, BitVec.le_def] at h1 h2
  have g3 : (UInt32.toBitVec 48).toNat = 48 := rfl
  have g4 : (UInt32.toBitVec 57).toNat = 57 := rfl
  have he : c.toNat = c.val.toBitVec.toNat := rfl
  omega

theorem char_ne_of_toNat_ne {c d : Char} (h : ¬ c.toNat = d.toNat) : ¬ c = d :=
  fun he => h (congrArg Char.toNat he)

theorem digit_head_facts (c : Char) (h : c.isDigit = true) :
    isWsChar c = false ∧ ¬ c = quoteChar ∧ ¬ c = lbracketChar ∧ ¬ c = lbraceChar ∧
      ¬ c = 'n' ∧ ¬ c = 't' ∧ ¬ c = 'f' ∧ ¬ c = rbracketChar ∧ ¬ c = rbraceChar := by
  have hb := isDigit_toNat c h
  refine ⟨?_, ?_, ?_, ?_, ?_, ?_, ?_, ?_, ?_⟩
  · have h1 : ¬ c = ' ' :=
      char_ne_of_toNat_ne (by rw [show (' ').toNat = 32 from rfl]; omega)
    have h2 : ¬ c = '\t' :=
      char_ne_of_toNat_ne (by rw [show ('\t').toNat = 9 from rfl]; omega)
    have h3 : ¬ c = '\n' :=
      char_ne_of_toNat_ne (by rw [show ('\n').toNat = 10 from rfl]; omega)
    have h4 : ¬ c = '\r' :=
      char_ne_of_toNat_ne (by rw [show ('\r').toNat = 13 from rfl]; omega)
    simp [isWsChar, h1, h2, h3, h4]
  · exact char_ne_of_toNat_ne (by rw [show quoteChar.toNat = 34 from rfl]; omega)
  · exact char_ne_of_toNat_ne (by rw [show lbracketChar.toNat = 91 from rfl]; omega)
  · exact char_ne_of_toNat_ne (by rw [show lbraceChar.toNat = 123 from rfl]; omega)
  · exact char_ne_of_toNat_ne (by rw [show ('n').toNat = 110 from rfl]; omega)
  · exact char_ne_of_toNat_ne (by rw [show ('t').toNat = 116 from rfl]; omega)
  · exact char_ne_of_toNat_ne (by rw [show ('f').toNat = 102 from rfl]; omega)
  · exact char_ne_of_toNat_ne (by rw [show rbracketChar.toNat = 93 from rfl]; omega)
  · exact char_ne_of_toNat_ne (by rw [show rbraceChar.toNat = 125 from rfl]; omega)

theorem intToChars_head (n : Int) :
    ∃ c t, intToChars n = c :: t ∧ (c = '-' ∨ c.isDigit = true) := by
  unfold intToChars
  by_cases h : n < 0
  · rw [if_pos h]
    exact ⟨'-', _, rfl, Or.inl rfl⟩
  · rw [if_neg h]
    obtain ⟨d, ds, hds⟩ : ∃ d ds, natToDigits n.natAbs = d :: ds := by
      cases hh : natToDigits n.natAbs with
      | nil => exact absurd hh (natToDigitsAux_ne_nil _ _ (by omega))
      | cons a t => exact ⟨a, t, rfl⟩
    refine ⟨d, ds, hds, Or.inr ?_⟩
    exact natToDigits_digits _ d (by rw [hds]; exact List.mem_cons_self d ds)

theorem numRestOk_nil : numRestOk [] := by
  intro c t h
  exact absurd h (by simp)

theorem numRestOk_head (c : Char) (t : List Char) (h1 : c.isDigit = false)
    (h2 : c ≠ '.') (h3 : c ≠ 'e') (h4 : c ≠ 'E') : numRestOk (c :: t) := by
  intro c2 t2 h
  injection h with ha hb
  subst ha
  exact ⟨h1, h2, h3, h4⟩

theorem numRestOk_arrRest (xs : List JValue) (rest : List Char) :
    numRestOk (dumpArrRest xs ++ rbracketChar :: rest) := by
  cases xs with
  | nil =>
    rw [show dumpArrRest [] = [] from rfl, List.nil_append]
    exact numRestOk_head _ _ (by decide) (by decide) (by decide) (by decide)
  | cons x xs =>
    rw [show dumpArrRest (x :: xs) = ',' :: ' ' :: (dumpVal x ++ dumpArrRest xs)
      from rfl, List.cons_append]
    exact numRestOk_head _ _ (by decide) (by decide) (by decide) (by decide)

theorem numRestOk_objRest (kvs : List (String × JValue)) (rest : List Char) :
    numRestOk (dumpObjRest kvs ++ rbraceChar :: rest) := by
  cases kvs with
  | nil =>
    rw [show dumpObjRest [] = [] from rfl, List.nil_append]
    exact numRestOk_head _ _ (by decide) (by decide) (by decide) (by decide)
  | cons kv kvs =>
    rw [show dumpObjRest (kv :: kvs) = ',' :: ' ' :: (dumpKV kv ++ dumpObjRest kvs)
      from rfl, List.cons_append]
    exact numRestOk_head _ _ (by decide) (by decide) (by decide) (by decide)

/-- The first character a dumped value prints: never whitespace, never a
closing bracket or brace. -/
theorem dumpVal_head (v : JValue) : ∃ c t, dumpVal v = c :: t ∧
    isWsChar c = false ∧ ¬ c = rbracketChar ∧ ¬ c = rbraceChar := by
  cases v with
  | null => exact ⟨'n', _, rfl, by decide, by decide, by decide⟩
  | bool b =>
    cases b with
    | false => exact ⟨'f', _, rfl, by decide, by decide, by decide⟩
    | true => exact ⟨'t', _, rfl, by decide, by decide, by decide⟩
  | int n =>
    obtain ⟨c, t, hct, hc⟩ := intToChars_head n
    refine ⟨c, t, hct, ?_⟩
    rcases hc with h | h
    · subst h
      exact ⟨by decide, by decide, by decide⟩
    · obtain ⟨a1, -, -, -, -, -, -, a8, a9⟩ := digit_head_facts c h
      exact ⟨a1, a8, a9⟩
  | str s => exact ⟨quoteChar, _, rfl, by decide, by decide, by decide⟩
  | arr l =>
    cases l with
    | nil => exact ⟨lbracketChar, _, rfl, by decide, by decide, by decide⟩
    | cons x xs => exact ⟨lbracketChar, _, rfl, by decide, by decide, by decide⟩
  | obj m =>
    cases m with
    | nil => exact ⟨lbraceChar, _, rfl, by decide, by decide, by decide⟩
    | cons kv kvs => exact ⟨lbraceChar, _, rfl, by decide, by decide, by decide⟩

/-- A value that starts with none of the structured-value leaders is read
as a number. -/
theorem parseVal_number (f : Nat) (c : Char) (t : List Char)
    (hws : isWsChar c = false) (h1 : ¬ c = quoteChar) (h2 : ¬ c = lbracketChar)
    (h3 : ¬ c = lbraceChar) (h4 : ¬ c = 'n') (h5 : ¬ c = 't') (h6 : ¬ c = 'f') :
    parseVal (f + 1) (c :: t) = parseNumber (c :: t) := by
  have hs : skipWs (c :: t) = c :: t := skipWs_cons c t hws
  simp only [parseVal, hs]
  rw [if_neg h1, if_neg h2, if_neg h3, if_neg h4, if_neg h5, if_neg h6]


/-- The parser inverts the serializer: with enough fuel, parsing a dumped
value (array tail, object member, object tail) consumes exactly its printed
form and returns it. -/
theorem parse_dump (fuel : Nat) :
    (∀ v rest, sizeV v ≤ fuel → numRestOk rest →
      parseVal fuel (dumpVal v ++ rest) = some (v, rest)) ∧
    (∀ xs rest, sizeA xs ≤ fuel →
      parseArrRest fuel (dumpArrRest xs ++ rbracketChar :: rest) = some (xs, rest)) ∧
    (∀ kv rest, sizeKV kv ≤ fuel → numRestOk rest →
      parseMember fuel (dumpKV kv ++ rest) = some (kv, rest)) ∧
    (∀ kvs rest, sizeO kvs ≤ fuel →
      parseObjRest fuel (dumpObjRest kvs ++ rbraceChar :: rest) = some (kvs, rest)) := by
  induction fuel with
  | zero =>
    refine ⟨?_, ?_, ?_, ?_⟩
    · intro v rest hsize hrest
      exact absurd hsize (by have := sizeV_pos v; omega)
    · intro xs rest hsize
      exact absurd hsize (by have := sizeA_pos xs; omega)
    · intro kv rest hsize hrest
      exact absurd hsize (by have := sizeKV_pos kv; omega)
    · intro kvs rest hsize
      exact absurd hsize (by have := sizeO_pos kvs; omega)
  | succ f ih =>
    obtain ⟨ihV, ihA, ihM, ihO⟩ := ih
    refine ⟨?_, ?_, ?_, ?_⟩
    · intro v rest hsize hrest
      cases v with
      | null => rfl
      | bool b => cases b <;> rfl
      | int n =>
        obtain ⟨c, t, hct, hc⟩ := intToChars_head n
        have hfacts : isWsChar c = false ∧ ¬ c = quoteChar ∧ ¬ c = lbracketChar ∧
            ¬ c = lbraceChar ∧ ¬ c = 'n' ∧ ¬ c = 't' ∧ ¬ c = 'f' := by
          rcases hc with h | h
          · subst h
            exact ⟨by decide, by decide, by decide, by decide, by decide,
              by decide, by decide⟩
          · obtain ⟨a1, a2, a3, a4, a5, a6, a7, -, -⟩ := digit_head_facts c h
            exact ⟨a1, a2, a3, a4, a5, a6, a7⟩
        obtain ⟨b1, b2, b3, b4, b5, b6, b7⟩ := hfacts
        have hin : dumpVal (.int n) ++ rest = c :: (t ++ rest) := by
          rw [show dumpVal (.int n) = intToChars n from rfl, hct, List.cons_append]
        rw [hin, parseVal_number f c (t ++ rest) b1 b2 b3 b4 b5 b6 b7,
          ← List.cons_append, ← hct]
        exact parseNumber_intToChars n rest hrest
      | str s =>
        have hin : dumpVal (.str s) ++ rest =
            quoteChar :: (s.data.flatMap jsonEscapeChar ++ quoteChar :: rest) := by
          simp [dumpVal, dumpStr]
        rw [hin]
        have hs1 : skipWs (quoteChar ::
            (s.data.flatMap jsonEscapeChar ++ quoteChar :: rest)) =
            quoteChar :: (s.data.flatMap jsonEscapeChar ++ quoteChar :: rest) :=
          skipWs_cons _ _ (by decide)
        simp only [parseVal, hs1]
        rw [if_pos trivial, parseStringBody_escape s.data rest, Option.map_some',
          string_mk_data]
      | arr l =>
        cases l with
        | nil => rfl
        | cons x xs =>
          simp only [sizeV, sizeA] at hsize
          have hin : dumpVal (.arr (x :: xs)) ++ rest =
              lbracketChar ::
                (dumpVal x ++ (dumpArrRest xs ++ rbracketChar :: rest)) := by
            simp [dumpVal]
          rw [hin]
          have hs1 : skipWs (lbracketChar ::
              (dumpVal x ++ (dumpArrRest xs ++ rbracketChar :: rest))) =
              lbracketChar ::
                (dumpVal x ++ (dumpArrRest xs ++ rbracketChar :: rest)) :=
            skipWs_cons _ _ (by decide)
          obtain ⟨c, t, hct, hcws, hcrb, -⟩ := dumpVal_head x
          have hs2 : skipWs (dumpVal x ++ (dumpArrRest xs ++ rbracketChar :: rest)) =
              c :: (t ++ (dumpArrRest xs ++ rbracketChar :: rest)) := by
            rw [hct, List.cons_append, skipWs_cons _ _ hcws]
          have hpv : parseVal f (c :: (t ++ (dumpArrRest xs ++ rbracketChar :: rest))) =
              some (x, dumpArrRest xs ++ rbracketChar :: rest) := by
            rw [← List.cons_append, ← hct]
            exact ihV x _ (by omega) (numRestOk_arrRest xs rest)
          have hpa : parseArrRest f (dumpArrRest xs ++ rbracketChar :: rest) =
              some (xs, rest) := ihA xs rest (by omega)
          simp only [parseVal, hs1]
          rw [if_neg (show ¬ lbracketChar = quoteChar from by decide), if_pos trivial]
          simp only [hs2]
          rw [if_neg hcrb]
          simp only [hpv, hpa]
      | obj m =>
        cases m with
        | nil => rfl
        | cons kv kvs =>
          obtain ⟨k, v⟩ := kv
          simp only [sizeV, sizeO] at hsize
          have hin : dumpVal (.obj ((k, v) :: kvs)) ++ rest =
              lbraceChar ::
                (dumpKV (k, v) ++ (dumpObjRest kvs ++ rbraceChar :: rest)) := by
            simp [dumpVal]
          rw [hin]
          have hs1 : skipWs (lbraceChar ::
              (dumpKV (k, v) ++ (dumpObjRest kvs ++ rbraceChar :: rest))) =
              lbraceChar ::
                (dumpKV (k, v) ++ (dumpObjRest kvs ++ rbraceChar :: rest)) :=
            skipWs_cons _ _ (by decide)
          obtain ⟨t, hct⟩ : ∃ t, dumpKV (k, v) = quoteChar :: t :=
            ⟨k.data.flatMap jsonEscapeChar ++ quoteChar :: ':' :: ' ' :: dumpVal v,
              by simp [dumpKV, dumpStr]⟩
          have hs2 : skipWs (dumpKV (k, v) ++ (dumpObjRest kvs ++ rbraceChar :: rest)) =
              quoteChar :: (t ++ (dumpObjRest kvs ++ rbraceChar :: rest)) := by
            rw [hct, List.cons_append, skipWs_cons _ _ (by decide)]
          have hpm : parseMember f
              (quoteChar :: (t ++ (dumpObjRest kvs ++ rbraceChar :: rest))) =
              some ((k, v), dumpObjRest kvs ++ rbraceChar :: rest) := by
            rw [← List.cons_append, ← hct]
            exact ihM (k, v) _ (by omega) (numRestOk_objRest kvs rest)
          have hpo : parseObjRest f (dumpObjRest kvs ++ rbraceChar :: rest) =
              some (kvs, rest) := ihO kvs rest (by omega)
          simp only [parseVal, hs1]
          rw [if_neg (show ¬ lbraceChar = quoteChar from by decide),
            if_neg (show ¬ lbraceChar = lbracketChar from by decide), if_pos trivial]
          simp only [hs2]
          rw [if_neg (show ¬ quoteChar = rbraceChar from by decide)]
          simp only [hpm, hpo]
    · intro xs rest hsize
      cases xs with
      | nil => rfl
      | cons x xs =>
        simp only [sizeA] at hsize
        have hin : dumpArrRest (x :: xs) ++ rbracketChar :: rest =
            ',' :: ' ' :: (dumpVal x ++ (dumpArrRest xs ++ rbracketChar :: rest)) := by
          simp [dumpArrRest]
        rw [hin]
        have hs1 : skipWs (',' :: ' ' ::
            (dumpVal x ++ (dumpArrRest xs ++ rbracketChar :: rest))) =
            ',' :: ' ' :: (dumpVal x ++ (dumpArrRest xs ++ rbracketChar :: rest)) :=
          skipWs_cons _ _ (by decide)
        have hpv : parseVal f (' ' ::
            (dumpVal x ++ (dumpArrRest xs ++ rbracketChar :: rest))) =
            some (x, dumpArrRest xs ++ rbracketChar :: rest) := by
          rw [parseVal_ws]
          exact ihV x _ (by omega) (numRestOk_arrRest xs rest)
        have hpa : parseArrRest f (dumpArrRest xs ++ rbracketChar :: rest) =
            some (xs, rest) := ihA xs rest (by omega)
        simp only [parseArrRest, hs1]
        rw [if_pos trivial]
        simp only [hpv, hpa]
    · intro kv rest hsize hrest
      obtain ⟨k, v⟩ := kv
      simp only [sizeKV] at hsize
      have hin : dumpKV (k, v) ++ rest =
          quoteChar :: (k.data.flatMap jsonEscapeChar ++
            quoteChar :: (':' :: ' ' :: (dumpVal v ++ rest))) := by
        simp [dumpKV, dumpStr]
      rw [hin]
      have hs1 : skipWs (quoteChar :: (k.data.flatMap jsonEscapeChar ++
          quoteChar :: (':' :: ' ' :: (dumpVal v ++ rest)))) =
          quoteChar :: (k.data.flatMap jsonEscapeChar ++
            quoteChar :: (':' :: ' ' :: (dumpVal v ++ rest))) :=
        skipWs_cons _ _ (by decide)
      have hsb := parseStringBody_escape k.data (':' :: ' ' :: (dumpVal v ++ rest))
      have hs2 : skipWs (':' :: ' ' :: (dumpVal v ++ rest)) =
          ':' :: ' ' :: (dumpVal v ++ rest) := skipWs_cons _ _ (by decide)
      have hpv : parseVal f (' ' :: (dumpVal v ++ rest)) = some (v, rest) := by
        rw [parseVal_ws]
        exact ihV v rest (by omega) hrest
      simp only [parseMember, hs1]
      rw [if_pos trivial]
      simp only [hsb, hs2]
      rw [if_pos trivial]
      simp only [hpv]
    · intro kvs rest hsize
      cases kvs with
      | nil => rfl
      | cons kv kvs =>
        simp only [sizeO] at hsize
        have hin : dumpObjRest (kv :: kvs) ++ rbraceChar :: rest =
            ',' :: ' ' :: (dumpKV kv ++ (dumpObjRest kvs ++ rbraceChar :: rest)) := by
          simp [dumpObjRest]
        rw [hin]
        have hs1 : skipWs (',' :: ' ' ::
            (dumpKV kv ++ (dumpObjRest kvs ++ rbraceChar :: rest))) =
            ',' :: ' ' :: (dumpKV kv ++ (dumpObjRest kvs ++ rbraceChar :: rest)) :=
          skipWs_cons _ _ (by decide)
        have hpm : parseMember f (' ' ::
            (dumpKV kv ++ (dumpObjRest kvs ++ rbraceChar :: rest))) =
            some (kv, dumpObjRest kvs ++ rbraceChar :: rest) := by
          rw [parseMember_ws]
          exact ihM kv _ (by omega) (numRestOk_objRest kvs rest)
        have hpo : parseObjRest f (dumpObjRest kvs ++ rbraceChar :: rest) =
            some (kvs, rest) := ihO kvs rest (by omega)
        simp only [parseObjRest, hs1]
        rw [if_pos trivial]
        simp only [hpm, hpo]


/-- `json.loads` inverts `json.dump` on every value of the model. -/
theorem json_loads_dumps (v : JValue) :
    json_loads (String.mk (dumpVal v)) = some v := by
  have hp : parseVal ((dumpVal v).length + 1) (dumpVal v) = some (v, []) := by
    have h := (parse_dump ((dumpVal v).length + 1)).1 v []
      (by have := sizeV_le_length v; omega) numRestOk_nil
    rwa [List.append_nil] at h
  simp only [json_loads]
  simp only [hp]
  rw [if_pos (show skipWs [] = ([] : List Char) from rfl)]

/-- C9 (counterexample): the JSON-serializable Python mapping with the
single integer key `1` is serialized with the key stringified — the dump
coincides with that of the string-keyed mapping — so loading it back gives
a string-keyed mapping that Python `==` does not equate to the original. -/
theorem c9_counterexample :
    dumpPyDict [(.int 1, .str "a")] = dumpVal (.obj [("1", .str "a")]) ∧
    json_loads (String.mk (dumpPyDict [(.int 1, .str "a")])) =
      some (.obj [("1", .str "a")]) ∧
    pyDictEq (objAsPyDict [("1", .str "a")]) [(.int 1, .str "a")] = false :=
  ⟨rfl, rfl, rfl⟩

/-- C9 (amended): for every string-keyed mapping, saving it and loading it
back through a fresh file — one whose floored age in days does not exceed
the threshold — returns the mapping unchanged. -/
theorem c9_roundtrip_string_keys (kvs : List (String × JValue))
    (now now2 maxAge : Int)
    (hfresh : Int.fdiv (now2 - now) 86400 ≤ maxAge) :
    check_and_update_cache (save_cache (.obj kvs) now) now2 maxAge = .obj kvs := by
  simp only [check_and_update_cache, save_cache]
  rw [if_neg (not_lt.mpr hfresh)]
  simp only [load_cache, json_loads_dumps]
  rw [if_pos (by simp [pyLen])]

/-- Witness for C9 on a concrete one-entry mapping and a 100-second-old
file. -/
theorem c9_witness :
    Int.fdiv ((100 : Int) - 0) 86400 ≤ 7 ∧
    check_and_update_cache (save_cache (.obj [("k", .str "v")]) 0) 100 7 =
      .obj [("k", .str "v")] :=
  ⟨by decide, c9_roundtrip_string_keys [("k", .str "v")] 0 100 7 (by decide)⟩

end NotionSync
